import Mathlib

/-!
Verification development for the PSP (Czech Chamber of Deputies) data
pipeline: a shallow embedding, in Lean, of the standardization and
snapshot-derivation layer (scripts/utils_io.py, scripts/standardize_poslanci.py,
scripts/standardize_votes.py, scripts/analyses/run_*.py), together with
theorems checking the behavioural properties stated in the design
documentation.

Python strings are modelled as Lean `String`/`List Char` (both compare by
code point); Python `None`/pandas `NaN` cells are modelled as `Option`;
functions that can raise are modelled in `Except String`.
-/

deriving instance DecidableEq for Except

namespace CzPsp


/-! ## Python string primitives, modelled over `List Char` -/

/-- Whitespace characters recognised by Python `str.strip()` (the ASCII
whitespace set; the data contains no exotic Unicode whitespace). -/
def isSpaceChar (c : Char) : Bool :=
  c = ' ' || c = '\t' || c = '\n' || c = '\r' || c = Char.ofNat 11 || c = Char.ofNat 12


/-- Python `str.strip()`. -/
def pyStripList (s : List Char) : List Char :=
  ((s.dropWhile isSpaceChar).reverse.dropWhile isSpaceChar).reverse


/-- Python `str.strip()` on `String`. -/
def pyStrip (s : String) : String :=
  ⟨pyStripList s.data⟩


/-- Python `str.upper()` restricted to the code points this data uses:
the ASCII range plus the single accented letter appearing in the raw
gender column. -/
def pyUpperChar (c : Char) : Char :=
  if 'a' ≤ c && c ≤ 'z' then Char.ofNat (c.toNat - 32)
  else if c = 'ž' then 'Ž'
  else c


/-- Python `str.upper()` on `String` (see `pyUpperChar`). -/
def pyUpper (s : String) : String :=
  ⟨s.data.map pyUpperChar⟩


/-- Python `str.split(sep)` for a single-character separator: keeps empty
fields, and the split of the empty string is `[""]`. -/
def splitOnChar (sep : Char) : List Char → List (List Char)
  | [] => [[]]
  | c :: rest =>
    let r := splitOnChar sep rest
    if c = sep then [] :: r
    else
      match r with
      | [] => [[c]]
      | h :: t => (c :: h) :: t


/-- `startsWithList hay needle`: Python `hay.startswith(needle)`. -/
def startsWithList : List Char → List Char → Bool
  | _, [] => true
  | [], _ :: _ => false
  | a :: as, b :: bs => a = b && startsWithList as bs


/-- `containsList hay needle`: Python `needle in hay` (substring test). -/
def containsList : List Char → List Char → Bool
  | [], n => n.isEmpty
  | h :: t, n => startsWithList (h :: t) n || containsList t n


/-- `afterStart needle s`: if `s` starts with `needle`, the remainder,
else `none` (used to model the anchored regex replacements). -/
def afterStart : List Char → List Char → Option (List Char)
  | [], s => some s
  | _ :: _, [] => none
  | a :: as, b :: bs => if b = a then afterStart as bs else none


/-- Python `str.zfill(width)` on digit strings (the sign handling of
`zfill` never triggers on this data). -/
def pyZfill (s : String) (w : Nat) : String :=
  if s.length ≥ w then s else ⟨List.replicate (w - s.length) '0' ++ s.data⟩


/-- Python `str.isdigit()` restricted to ASCII digits (the raw tables
only contain ASCII digits). -/
def isDigitsList (s : List Char) : Bool :=
  !s.isEmpty && s.all (fun c => '0' ≤ c && c ≤ '9')


/-- Numeric value of an ASCII digit string. -/
def digitsToNat (s : List Char) : Nat :=
  s.foldl (fun acc c => acc * 10 + (c.toNat - 48)) 0


/-- Python `int(s)`: strips whitespace, then requires a digit string
(raises `ValueError` otherwise; the raw ids this is applied to are
numeric). -/
def pyIntNat (s : String) : Except String Nat :=
  let t := pyStripList s.data
  if isDigitsList t then .ok (digitsToNat t) else .error ("invalid literal for int(): " ++ s)


/-! ## Lexicographic string comparison (Python compares by code point,
as does Lean; we use explicit Bool-valued comparators so that sorting
hypotheses can be discharged by induction) -/

/-- Strict lexicographic order on char lists by code point. -/
def listLt : List Char → List Char → Bool
  | [], [] => false
  | [], _ :: _ => true
  | _ :: _, [] => false
  | a :: as, b :: bs => a.toNat < b.toNat || (a = b && listLt as bs)


/-- Lexicographic `≤` on char lists by code point. -/
def listLe : List Char → List Char → Bool
  | [], _ => true
  | _ :: _, [] => false
  | a :: as, b :: bs => a.toNat < b.toNat || (a = b && listLe as bs)


/-- Python `s <= t` on strings. -/
def strLeB (a b : String) : Bool := listLe a.data b.data


/-- Python `s < t` on strings. -/
def strLtB (a b : String) : Bool := listLt a.data b.data


/-! ## Entity Standardizer: date and gender parsing
(scripts/standardize_poslanci.py) -/

/-- `_parse_psp_date` from scripts/standardize_poslanci.py: recognises
`DD.MM.YYYY` (exactly three dot-separated parts, zero-padded on output)
and any dash-containing value (truncated at the first space); every
other input yields `None`. -/
def parsePspDate (d : String) : Option String :=
  if d = "" then none
  else if containsList d.data ['.'] && (splitOnChar '.' d.data).length = 3 then
    match splitOnChar '.' d.data with
    | [dd, mm, yyyy] =>
      some (⟨yyyy⟩ ++ "-" ++ pyZfill ⟨mm⟩ 2 ++ "-" ++ pyZfill ⟨dd⟩ 2)
    | _ => none
  else if containsList d.data ['-'] then
    some ⟨(splitOnChar ' ' d.data).headD []⟩
  else none


/-- `_parse_psp_gender` from scripts/standardize_poslanci.py: strips and
upper-cases the raw code; `M` maps to male, `Z`/`Ž` to female, and every
other value (including the empty string) to `None`. -/
def parsePspGender (g : String) : Option String :=
  if g = "" then none
  else
    let gg := pyUpper (pyStrip g)
    if gg = "M" then some "male"
    else if gg = "Z" || gg = "Ž" then some "female"
    else none


/-! ## Ballot Standardizer: code mappings and dates
(scripts/standardize_votes.py) -/

/-- `_map_option` from scripts/standardize_votes.py: strip, upper-case,
then the closed ballot-code mapping with `unknown` as the default. -/
def mapOption (code : String) : String :=
  let c := pyUpper (pyStrip code)
  if c = "A" then "yes"
  else if c = "B" || c = "N" then "no"
  else if c = "C" || c = "K" then "abstain"
  else if c = "F" then "not voting"
  else if c = "@" then "absent"
  else if c = "M" then "excused"
  else if c = "W" then "not member"
  else "unknown"


/-- `_to_start_date` from scripts/standardize_votes.py. The Python
tuple-unpacking of `d.split(".")` raises when the dotted value does not
have exactly three parts; that raise is modelled as `Except.error`. -/
def toStartDate (dateRaw timeRaw : String) : Except String (Option String) :=
  let d := pyStrip dateRaw
  let t := pyStrip timeRaw
  if d = "" then .ok none
  else if containsList d.data ['.'] then
    match splitOnChar '.' d.data with
    | [dd, mm, yyyy] =>
      if t ≠ "" && containsList t.data [':'] then
        .ok (some (⟨yyyy⟩ ++ "-" ++ pyZfill ⟨mm⟩ 2 ++ "-" ++ pyZfill ⟨dd⟩ 2 ++ "T" ++ t ++ ":00"))
      else
        .ok (some (⟨yyyy⟩ ++ "-" ++ pyZfill ⟨mm⟩ 2 ++ "-" ++ pyZfill ⟨dd⟩ 2))
    | _ => .error "ValueError: unpacking date parts"
  else .ok none


/-- `_to_date` from scripts/standardize_votes.py. -/
def toDateHl (dateRaw : String) : Except String (Option String) :=
  let d := pyStrip dateRaw
  if d = "" then .ok none
  else if containsList d.data ['.'] then
    match splitOnChar '.' d.data with
    | [dd, mm, yyyy] =>
      .ok (some (⟨yyyy⟩ ++ "-" ++ pyZfill ⟨mm⟩ 2 ++ "-" ++ pyZfill ⟨dd⟩ 2))
    | _ => .error "ValueError: unpacking date parts"
  else .ok none


/-! ## Raw Record Reader (scripts/utils_io.py)

`read_unl` decodes the whole file and uses Python `str.splitlines()`;
`read_unl_iter` iterates the open file (universal-newline line
boundaries, endings kept) and strips a trailing `"\n"` from each line.
Both are modelled on the decoded character sequence (both decode the
same bytes with the same codec and `errors="replace"`, so decoding
cannot distinguish them). -/

/-- The line-break characters recognised by Python `str.splitlines()`. -/
def isLineBreakChar (c : Char) : Bool :=
  c = '\n' || c = '\r' || c = Char.ofNat 11 || c = Char.ofNat 12 ||
  c = Char.ofNat 28 || c = Char.ofNat 29 || c = Char.ofNat 30 ||
  c = Char.ofNat 133 || c = Char.ofNat 8232 || c = Char.ofNat 8233


/-- Python `str.splitlines()`, processed one character at a time; the
Bool flag records that the previous character was a `\r`, so that a
following `\n` is the second half of a single `\r\n` break instead of a
break of its own.  Any break at end of input produces no trailing empty
line. -/
def pySplitlinesGo : List Char → List Char → Bool → List (List Char)
  | [], acc, _ => if acc.isEmpty then [] else [acc.reverse]
  | c :: rest, acc, afterCR =>
    if afterCR && c = '\n' then pySplitlinesGo rest acc false
    else if c = '\r' then acc.reverse :: pySplitlinesGo rest [] true
    else if isLineBreakChar c then acc.reverse :: pySplitlinesGo rest [] false
    else pySplitlinesGo rest (c :: acc) false


/-- Python `str.splitlines()`. -/
def pySplitlines (s : List Char) : List (List Char) := pySplitlinesGo s [] false


/-- Line iteration of a text file opened with `newline=""`: universal
newline recognition (`\n`, `\r`, `\r\n`), endings returned untranslated.
The Bool flag records that the accumulated line ends in `\r` and is
pending: a following `\n` joins it (one `\r\n` ending), anything else
closes it. -/
def pyReadLinesGo : List Char → List Char → Bool → List (List Char)
  | [], acc, _ => if acc.isEmpty then [] else [acc.reverse]
  | c :: rest, acc, pendingCR =>
    if pendingCR then
      if c = '\n' then ('\n' :: acc).reverse :: pyReadLinesGo rest [] false
      else if c = '\r' then acc.reverse :: pyReadLinesGo rest ['\r'] true
      else acc.reverse :: pyReadLinesGo rest [c] false
    else
      if c = '\r' then pyReadLinesGo rest ('\r' :: acc) true
      else if c = '\n' then ('\n' :: acc).reverse :: pyReadLinesGo rest [] false
      else pyReadLinesGo rest (c :: acc) false


/-- Python `line.rstrip("\n")`. -/
def pyRstripNewline (l : List Char) : List Char :=
  (l.reverse.dropWhile (fun c => c = '\n')).reverse


/-- The sequence of lines seen by `read_unl_iter`'s `for` loop, after its
`rstrip("\n")`. -/
def pyIterLines (s : List Char) : List (List Char) :=
  (pyReadLinesGo s [] false).map pyRstripNewline


/-- The rows of a line list: non-empty lines split on the pipe. -/
def rowsOfLines (lines : List (List Char)) : List (List String) :=
  (lines.filter (fun l => !l.isEmpty)).map
    (fun l => (splitOnChar '|' l).map (fun cs => (⟨cs⟩ : String)))


/-- The `read_unl` error text (file and deviant row count). -/
def unlSchemaMsg (path : String) (badCount expected : Nat) : String :=
  path ++ " has " ++ toString badCount ++ " rows with unexpected column count (expected "
    ++ toString expected ++ ")."


/-- The `read_unl_iter` error text (file, row index, expected and got). -/
def unlIterMsg (path : String) (row expected got : Nat) : String :=
  path ++ " has unexpected column count on row " ++ toString row ++ " (expected "
    ++ toString expected ++ ", got " ++ toString got ++ ")."


/-- Number of rows whose column count deviates from the expectation. -/
def badCountOf (lines : List (List Char)) (n : Nat) : Nat :=
  ((rowsOfLines lines).filter (fun r => r.length ≠ n)).length


/-- `read_unl` from scripts/utils_io.py, on an already-split line list. -/
def readUnlLines (path : String) (lines : List (List Char)) (expectedNcols : Option Nat) :
    Except String (List (List String)) :=
  let rows := rowsOfLines lines
  match expectedNcols with
  | none => .ok rows
  | some n =>
    if badCountOf lines n = 0 then .ok rows
    else .error (unlSchemaMsg path (badCountOf lines n) n)


/-- `read_unl` from scripts/utils_io.py. -/
def readUnl (path : String) (content : List Char) (expectedNcols : Option Nat) :
    Except String (List (List String)) :=
  readUnlLines path (pySplitlines content) expectedNcols


/-- The loop body of `read_unl_iter` from scripts/utils_io.py, on the
iterated (rstripped) lines, threading the enumeration index: empty lines
are skipped, the first deviant row aborts the whole stream. -/
def readUnlIterLines (path : String) (expectedNcols : Option Nat) :
    List (List Char) → Nat → Except String (List (List String))
  | [], _ => .ok []
  | line :: rest, i =>
    if line.isEmpty then readUnlIterLines path expectedNcols rest (i + 1)
    else
      let cols := (splitOnChar '|' line).map (fun cs => (⟨cs⟩ : String))
      match expectedNcols with
      | some n =>
        if cols.length ≠ n then .error (unlIterMsg path i n cols.length)
        else (readUnlIterLines path expectedNcols rest (i + 1)).map (cols :: ·)
      | none => (readUnlIterLines path expectedNcols rest (i + 1)).map (cols :: ·)


/-- `read_unl_iter` from scripts/utils_io.py, fully consumed (a Python
generator raising mid-stream aborts its consumer, so the consumed result
is `Except`). -/
def readUnlIter (path : String) (content : List Char) (expectedNcols : Option Nat) :
    Except String (List (List String)) :=
  readUnlIterLines path expectedNcols (pyIterLines content) 0


/-- Success payload of a reader result (`none` on error). -/
def exceptRows (e : Except String (List (List String))) : Option (List (List String)) :=
  match e with
  | .ok r => some r
  | .error _ => none


/-- A decoded file whose only line-break characters are `\n`. -/
def onlyLFBreaks (s : List Char) : Bool :=
  s.all (fun c => !(isLineBreakChar c) || c = '\n')


/-! ## Stable sorting

Python `sorted` is a stable ascending sort; we model it by stable
insertion (an element is inserted before the first element it compares
`le` to, so equal keys keep their original order). -/

/-- Insert `a` into `l` before the first element `b` with `le a b`. -/
def insertSorted (le : α → α → Bool) (a : α) : List α → List α
  | [] => [a]
  | b :: t => if le a b then a :: b :: t else b :: insertSorted le a t


/-- Stable ascending sort by the Bool comparison `le`. -/
def sortByLe (le : α → α → Bool) : List α → List α
  | [] => []
  | a :: t => insertSorted le a (sortByLe le t)


/-! ## Canonical entities, as read back from the standardized CSVs

`pd.read_csv` turns an empty cell into `NaN`; such cells are `none`
here.  The key columns (`id`, `person_id`, `organization_id`) are always
written non-empty by the Entity Standardizer, so they are plain
strings. -/

/-- A row of organizations.csv. -/
structure Org where
  id : String
  name : Option String
  classification : Option String
  parent_id : Option String
  founding_date : Option String
  dissolution_date : Option String
  identifiers : Option String
  sources : Option String
deriving DecidableEq


/-- A row of persons.csv. -/
structure Person where
  id : String
  name : Option String
  given_name : Option String
  family_name : Option String
  birth_date : Option String
  death_date : Option String
  gender : Option String
  identifiers : Option String
  sources : Option String
deriving DecidableEq


/-- A row of memberships.csv. -/
structure Membership where
  id : String
  person_id : String
  organization_id : String
  start_date : Option String
  end_date : Option String
  sources : Option String
deriving DecidableEq


/-- Python `needle in hay` on strings. -/
def pyContains (hay needle : String) : Bool := containsList hay.data needle.data


/-- The legislature's canonical name substring. -/
def snemovnaSubstr : String := "Poslanecká sněmovna"


/-- The parliamentary-club name substring. -/
def klubSubstr : String := "Poslanecký klub"


/-- The current-term predicate shared by every analysis script: name
contains the legislature substring (missing names count as empty) and
`dissolution_date` is null. -/
def isCurrentTermOrg (o : Org) : Bool :=
  pyContains (o.name.getD "") snemovnaSubstr && o.dissolution_date.isNone


/-- The shared current-term resolution (the `cur_terms` filter and
length-1 check inlined identically in run_current_term.py,
run_current_members.py, run_all_members.py, run_current_groups.py and
run_all_groups.py). -/
def resolveCurrentTerm (orgs : List Org) : Except String Org :=
  match orgs.filter isCurrentTermOrg with
  | [o] => .ok o
  | l => .error ("Expected exactly 1 current term org, found " ++ toString l.length)


/-! ## Current/all groups (scripts/analyses/run_current_groups.py,
scripts/analyses/run_all_groups.py)

The JSON-string array columns (`identifiers`, `sources`) are decoded at
the serialization boundary only; both scripts treat them identically, so
they are carried opaquely here. -/

/-- A derived group record. -/
structure GroupRec where
  id : String
  name : String
  classification : String
  parent_id : Option String
  founding_date : Option String
  dissolution_date : Option String
  identifiers : Option String
  sources : Option String
deriving DecidableEq


/-- The regex replacement `^Poslanecký klub\s+` (the match requires at
least one whitespace character after the marker and consumes the whole
run) followed by `.strip()`. -/
def stripClubMarker (name : String) : String :=
  match afterStart klubSubstr.data name.data with
  | some (c :: cs) =>
    if isSpaceChar c then ⟨pyStripList ((c :: cs).dropWhile isSpaceChar)⟩
    else pyStrip name
  | _ => pyStrip name


/-- The club selection shared by both group views: organizations whose
parent is the current term and whose name contains the club substring. -/
def isClubOf (ctId : String) (o : Org) : Bool :=
  o.parent_id = some ctId && pyContains (o.name.getD "") klubSubstr


/-- The record transformation shared by both group views. -/
def mkGroupRec (o : Org) : GroupRec :=
  { id := o.id
    name := stripClubMarker (o.name.getD "")
    classification := "group"
    parent_id := o.parent_id
    founding_date := o.founding_date
    dissolution_date := o.dissolution_date
    identifiers := o.identifiers
    sources := o.sources }


/-- The deterministic group ordering `(name, id)` (Python tuple
comparison on strings). -/
def groupLe (a b : GroupRec) : Bool :=
  strLtB a.name b.name || (a.name = b.name && strLeB a.id b.id)


/-- run_current_groups from scripts/analyses/run_current_groups.py
(record sequence of both its JSON and CSV outputs). -/
def runCurrentGroups (orgs : List Org) : Except String (List GroupRec) := do
  let ct ← resolveCurrentTerm orgs
  let groups := orgs.filter (isClubOf ct.id)
  .ok (sortByLe groupLe (groups.map mkGroupRec))


/-- run_all_groups from scripts/analyses/run_all_groups.py (record
sequence of both its JSON and CSV outputs). -/
def runAllGroups (orgs : List Org) : Except String (List GroupRec) := do
  let ct ← resolveCurrentTerm orgs
  let groups := orgs.filter (isClubOf ct.id)
  .ok (sortByLe groupLe (groups.map mkGroupRec))


/-- Sample snapshot data: the current-term organization of the concrete
scenario in the design documentation. -/
def sampleTermOrg : Org :=
  { id := "psp:org:200", name := some "Poslanecká sněmovna",
    classification := some "organization", parent_id := none,
    founding_date := some "2025-01-01", dissolution_date := none,
    identifiers := none, sources := none }


/-- Sample snapshot data: one parliamentary club under the current
term. -/
def sampleClubOrg : Org :=
  { id := "psp:org:201", name := some "Poslanecký klub ANO",
    classification := some "organization", parent_id := some "psp:org:200",
    founding_date := some "2025-01-01", dissolution_date := none,
    identifiers := none, sources := none }


/-- Lexicographic `(key₁, key₂)` comparison used by every `sorted` call
of the analysis scripts (Python tuple comparison on strings). -/
def byKey2Le (k1 k2 : α → String) (a b : α) : Bool :=
  strLtB (k1 a) (k1 b) || (k1 a = k1 b && strLeB (k2 a) (k2 b))


/-! ## Person roster views (scripts/analyses/run_current_members.py,
scripts/analyses/run_all_members.py) -/

/-- An entry of a membership-kind list (`{id, name, start_date,
end_date}`); `name` is `none` when a `NaN` survives to the sanitizer,
which turns it into JSON null. -/
structure MembershipItem where
  id : String
  name : Option String
  start_date : Option String
  end_date : Option String
deriving DecidableEq


/-- The per-person nested membership structure. -/
structure MemKinds where
  parliament : List MembershipItem
  groups : List MembershipItem
  candidate_list : List MembershipItem
  constituency : List MembershipItem
deriving DecidableEq


/-- One row of a roster view. -/
structure RosterEntry where
  person : Person
  image : Option String
  memberships : MemKinds
deriving DecidableEq


/-- The membership-item ordering
`(x.get("start_date") or "", x.get("id") or "")`: an absent start date
sorts as the empty string, i.e. first. -/
def itemLe (a b : MembershipItem) : Bool :=
  byKey2Le (fun x => x.start_date.getD "") (fun x => x.id) a b


/-- `NaN`-last comparison of the name column used by
`sort_values(["name", "id"])`. -/
def optNameLt : Option String → Option String → Bool
  | some a, some b => strLtB a b
  | some _, none => true
  | none, _ => false


/-- The top-level roster ordering `(name, id)`, missing names last. -/
def rosterLe (a b : RosterEntry) : Bool :=
  optNameLt a.person.name b.person.name ||
    (a.person.name = b.person.name && strLeB a.person.id b.person.id)


/-- One row of the raw current-flag table (poslanec.unl) after the
column renaming: columns 1-4 and 14.  Rows shorter than the frame width
are padded with `NaN` by pandas; `getD ""` models the padding (an absent
cell and an empty cell behave alike in every use below). -/
structure FlagRow where
  idOsoba : String
  constituency_org_id : Option String
  candidate_list_org_id : Option String
  term_org_id : Option String
  is_current : String
  person_id : String
deriving DecidableEq


/-- `.replace({"": None}).map(lambda x: f"psp:org:{x}" if x else None)`. -/
def optOrgId (x : String) : Option String :=
  if x = "" then none else some ("psp:org:" ++ x)


/-- Column extraction of the flag table (run_current_members.py lines
59-74; run_all_members.py selects the same columns minus
`is_current`). -/
def mkFlagRow (r : List String) : FlagRow :=
  { idOsoba := r.getD 1 ""
    constituency_org_id := optOrgId (r.getD 2 "")
    candidate_list_org_id := optOrgId (r.getD 3 "")
    term_org_id := optOrgId (r.getD 4 "")
    is_current := r.getD 14 ""
    person_id := "psp:person:" ++ r.getD 1 "" }


/-- The width `pd.DataFrame(pos_rows).shape[1]` (ragged rows are padded
to the longest row). -/
def dfWidth (rows : List (List String)) : Nat :=
  rows.foldl (fun acc r => max acc r.length) 0


/-- Python dict built by repeated insertion (`dict(zip(...))`,
last-wins), looked up with `.get`. -/
def dictGetLast (pairs : List (String × α)) (k : String) : Option α :=
  (pairs.reverse.find? (fun p => p.1 = k)).map (·.2)


/-- The image URL template. -/
def mkImageUrl (year : String) (n : Nat) : String :=
  "https://www.psp.cz/eknih/cdrom/" ++ year ++ "ps/eknih/" ++ year
    ++ "ps/poslanci/i" ++ toString n ++ ".jpg"


/-- `f"psp:org:{...}"` etc. split back to the raw numeric id:
`term_id.split(":")[-1]`. -/
def lastColonPart (s : String) : String :=
  ⟨(splitOnChar ':' s.data).getLastD []⟩


/-- `str()` applied to a CSV cell: a missing cell is the float `NaN`,
whose `str()` is the literal string "nan". -/
def pyStrCell : Option String → String
  | none => "nan"
  | some s => s


/-- The image column of run_current_members.py (`int(x)` of the raw
person id, which raises on a non-numeric id). -/
def flagsWithImage (year : String) : List FlagRow → Except String (List (FlagRow × String))
  | [] => .ok []
  | f :: rest => do
    let n ← pyIntNat f.idOsoba
    let tail ← flagsWithImage year rest
    .ok ((f, mkImageUrl year n) :: tail)


/-- `club_id_to_name.get(oid) or oid` (a missing key and an empty club
name both fall back to the raw id). -/
def clubNameOr (clubDict : List (String × String)) (oid : String) : String :=
  match dictGetLast clubDict oid with
  | none => oid
  | some s => if s = "" then oid else s


/-- `org_id_to_name.get(cand_id) or cand_id`: the dict values are the
name cells, so a missing key (`None`, falsy) falls back to the id while
a present `NaN` (truthy in Python) survives and is sanitized to null. -/
def orgNameOr (orgNameDict : List (String × Option String)) (oid : String) : Option String :=
  match dictGetLast orgNameDict oid with
  | none => some oid
  | some none => none
  | some (some s) => if s = "" then some oid else some s


/-- The parliament entries of one person in run_current_members.py
(membership rows in the current-term organization, labelled with the
term's id and name). -/
def parliamentEntriesFor (ctId : String) (ctName : Option String)
    (term_m : List Membership) (pid : String) : List MembershipItem :=
  (term_m.filter (fun m => m.person_id = pid)).map (fun m =>
    { id := ctId, name := ctName, start_date := m.start_date, end_date := m.end_date })


/-- The group entries of one person in run_current_members.py. -/
def groupEntriesFor (clubDict : List (String × String)) (groups_m : List Membership)
    (pid : String) : List MembershipItem :=
  (groups_m.filter (fun m => m.person_id = pid)).map (fun m =>
    { id := m.organization_id, name := some (clubNameOr clubDict m.organization_id),
      start_date := m.start_date, end_date := m.end_date })


/-- The single-entry candidate-list/constituency list built from the
flag-table join (`if cand_id:` is false for a missing key, a null org id
and an empty string). -/
def flagItemFor (orgNameDict : List (String × Option String))
    (dict : List (String × Option String)) (pid : String)
    (sd ed : Option String) : List MembershipItem :=
  match dictGetLast dict pid with
  | some (some cid) =>
    if cid = "" then []
    else [{ id := cid, name := orgNameOr orgNameDict cid, start_date := sd, end_date := ed }]
  | _ => []


/-- `_mem_for` of run_current_members.py, together with the
`memberships_by_person` construction it reads from: the dict holds a key
for exactly the current person ids (parliament rows from `term_m`, with
the synthesized `[term_start, null]` fallback, and group rows from
`groups_m`); `.get(pid) or {empty}` yields empty lists for any other
pid.  The synthesized entry carries the raw founding-date cell: a `NaN`
cell goes in as-is and is sanitized to null in the written output, which
`ctSince = none` models (the synthesized entry is always the only
parliament entry, so its `NaN`-vs-string sort key is never compared). -/
def memFor (ctId : String) (ctName : Option String) (ctSince : Option String)
    (orgNameDict : List (String × Option String)) (clubDict : List (String × String))
    (currentIds : List String) (term_m groups_m : List Membership)
    (candDict consDict : List (String × Option String)) (pid : String) : MemKinds :=
  let parliament0 :=
    if currentIds.contains pid then
      match parliamentEntriesFor ctId ctName term_m pid with
      | [] => [{ id := ctId, name := ctName, start_date := ctSince, end_date := none }]
      | l => l
    else []
  let groups0 := if currentIds.contains pid then groupEntriesFor clubDict groups_m pid else []
  let parliament := sortByLe itemLe parliament0
  let groups := sortByLe itemLe groups0
  let p0 := parliament.head?
  let start_date := p0.bind (fun x => x.start_date)
  let end_date := p0.bind (fun x => x.end_date)
  { parliament := parliament
    groups := groups
    candidate_list := flagItemFor orgNameDict candDict pid start_date end_date
    constituency := flagItemFor orgNameDict consDict pid start_date end_date }


/-- The pure tail of run_current_members.py, from the point where the
current term, its raw founding-date cell and the image-joined flag rows
are in hand. -/
def currentRosterCore (persons : List Person) (orgs : List Org)
    (memberships : List Membership) (ct : Org) (ctSince : Option String)
    (flags : List (FlagRow × String)) : List RosterEntry :=
  let ctId := ct.id
  let currentIds := flags.map (fun fi => fi.1.person_id)
  let out := (persons.filter (fun p => currentIds.contains p.id)).flatMap (fun p =>
      match flags.filter (fun fi => fi.1.person_id = p.id) with
      | [] => [(p, (none : Option String))]
      | ms => ms.map (fun fi => (p, some fi.2)))
  let orgNameDict := orgs.map (fun o => (o.id, o.name))
  let clubs := orgs.filter (isClubOf ctId)
  let clubDict := clubs.map (fun o => (o.id, stripClubMarker (o.name.getD "")))
  let clubIds := clubs.map (fun o => o.id)
  let term_m := memberships.filter (fun m =>
      m.organization_id = ctId && currentIds.contains m.person_id)
  let groups_m := memberships.filter (fun m =>
      clubIds.contains m.organization_id && currentIds.contains m.person_id)
  let candDict := flags.map (fun fi => (fi.1.person_id, fi.1.candidate_list_org_id))
  let consDict := flags.map (fun fi => (fi.1.person_id, fi.1.constituency_org_id))
  sortByLe rosterLe (out.map (fun pi =>
      { person := pi.1, image := pi.2,
        memberships := memFor ctId ct.name ctSince orgNameDict clubDict currentIds
          term_m groups_m candDict consDict pi.1.id }))


/-- The filtered flag rows of run_current_members.py: current-flagged
rows belonging to the current term. -/
def currentFlagRows (posContent : List Char) (ctId : String) : List FlagRow :=
  (((rowsOfLines (pySplitlines posContent)).map mkFlagRow).filter
      (fun f => f.is_current = "1")).filter
    (fun f => f.term_org_id = some ctId)


/-- run_current_members from scripts/analyses/run_current_members.py:
the roster record sequence written to both outputs (pandas
`sort_values` is key-equivalent to the stable sort modelled here).
Raised exceptions propagate as `Except.error`. -/
def runCurrentMembers (persons : List Person) (orgs : List Org)
    (memberships : List Membership) (posContent : List Char) :
    Except String (List RosterEntry) :=
  match resolveCurrentTerm orgs with
  | .error m => .error m
  | .ok ct =>
    -- `if not current_term_since: raise`: only a falsy cell raises here.
    -- A NaN founding date is truthy in Python (`not nan` is False), so it
    -- passes the guard and is `str()`-wrapped to "nan" for the year below,
    -- while the synthesized fallback keeps the raw cell.
    if ct.founding_date = some "" then .error "Current term missing founding_date"
    else if dfWidth (rowsOfLines (pySplitlines posContent)) ≠ 16 then
      .error ("Unexpected poslanec.unl column count: "
        ++ toString (dfWidth (rowsOfLines (pySplitlines posContent))) ++ " (expected 16)")
    else
      match flagsWithImage ⟨(splitOnChar '-' (pyStrCell ct.founding_date).data).headD []⟩
          (currentFlagRows posContent ct.id) with
      | .error m => .error m
      | .ok flags =>
        .ok (currentRosterCore persons orgs memberships ct ct.founding_date flags)


/-- `_membership_item`'s `org_name or org_id` applied to the term name
cell (a `NaN` cell is truthy in Python and survives to the sanitizer;
an empty string falls back to the id). -/
def termItemName (ctName : Option String) (ctId : String) : Option String :=
  match ctName with
  | none => none
  | some s => if s = "" then some ctId else some s


/-- The parliament entries of one person in run_all_members.py. -/
def allParliamentFor (ctId : String) (ctName : Option String)
    (term_m : List Membership) (pid : String) : List MembershipItem :=
  (term_m.filter (fun m => m.person_id = pid)).map (fun m =>
    { id := ctId, name := termItemName ctName ctId,
      start_date := m.start_date, end_date := m.end_date })


/-- The image column of run_all_members.py
(`int(pid.split(':')[-1])`, which raises on a non-numeric id). -/
def personsWithImage (year : String) : List Person → Except String (List (Person × String))
  | [] => .ok []
  | p :: rest => do
    let n ← pyIntNat (lastColonPart p.id)
    let tail ← personsWithImage year rest
    .ok ((p, mkImageUrl year n) :: tail)


/-- `_mem_for` of run_all_members.py with its `memberships_by_person`
construction: the dict gets a key (via `setdefault`) for exactly the
person ids appearing in `term_m` or `groups_m`; there is no synthesized
parliament fallback in this view, and the candidate/constituency lists
are passed through the same sort as the other kinds. -/
def memForAll (ctId : String) (ctName : Option String)
    (orgNameDict : List (String × Option String)) (clubDict : List (String × String))
    (term_m groups_m : List Membership)
    (candDict consDict : List (String × Option String)) (pid : String) : MemKinds :=
  let hasKey := term_m.any (fun m => m.person_id = pid)
      || groups_m.any (fun m => m.person_id = pid)
  let parliament := sortByLe itemLe
    (if hasKey then allParliamentFor ctId ctName term_m pid else [])
  let groups := sortByLe itemLe
    (if hasKey then groupEntriesFor clubDict groups_m pid else [])
  let p0 := parliament.head?
  let start_date := p0.bind (fun x => x.start_date)
  let end_date := p0.bind (fun x => x.end_date)
  { parliament := parliament
    groups := groups
    candidate_list := sortByLe itemLe (flagItemFor orgNameDict candDict pid start_date end_date)
    constituency := sortByLe itemLe (flagItemFor orgNameDict consDict pid start_date end_date) }


/-- The pure tail of run_all_members.py, from the point where the
current term, its `str()`-wrapped founding date (every use in this
script goes through `str()`, so a NaN cell arrives as "nan"), the flag
rows and the image-joined roster persons are in hand. -/
def allRosterCore (orgs : List Org) (memberships : List Membership)
    (ct : Org) (termSince : String) (flagsAll : List FlagRow)
    (outImg : List (Person × String)) : List RosterEntry :=
  let ctId := ct.id
  let flags := flagsAll.filter (fun f => f.term_org_id = some ctId)
  let candDict := flags.map (fun f => (f.person_id, f.candidate_list_org_id))
  let consDict := flags.map (fun f => (f.person_id, f.constituency_org_id))
  let orgNameDict := orgs.map (fun o => (o.id, o.name))
  let clubs := orgs.filter (isClubOf ctId)
  let clubDict := clubs.map (fun o => (o.id, stripClubMarker (o.name.getD "")))
  let clubIds := clubs.map (fun o => o.id)
  let memberships1 := memberships.filter (fun m =>
      m.organization_id = ctId || clubIds.contains m.organization_id)
  let membershipsF := memberships1.map (fun m =>
      { m with end_date := some (m.end_date.getD "") })
  let memberships2 := membershipsF.filter (fun m =>
      m.end_date.getD "" = "" || strLeB termSince (m.end_date.getD ""))
  let term_m := memberships2.filter (fun m => m.organization_id = ctId)
  let groups_m := memberships2.filter (fun m => clubIds.contains m.organization_id)
  sortByLe rosterLe (outImg.map (fun pi =>
      { person := pi.1, image := some pi.2,
        memberships := memForAll ctId ct.name orgNameDict clubDict
          term_m groups_m candDict consDict pi.1.id }))


/-- The sorted, deduplicated person-id selection of run_all_members.py:
any person with a membership row in the term organization whose
(`fillna`-normalized) end date is empty or at least the term start. -/
def allPersonIds (orgs : List Org) (memberships : List Membership)
    (ct : Org) (termSince : String) : List String :=
  let ctId := ct.id
  let clubIds := (orgs.filter (isClubOf ctId)).map (fun o => o.id)
  let memberships1 := memberships.filter (fun m =>
      m.organization_id = ctId || clubIds.contains m.organization_id)
  let membershipsF := memberships1.map (fun m =>
      { m with end_date := some (m.end_date.getD "") })
  let memberships2 := membershipsF.filter (fun m =>
      m.end_date.getD "" = "" || strLeB termSince (m.end_date.getD ""))
  let term_m := memberships2.filter (fun m => m.organization_id = ctId)
  sortByLe strLeB ((term_m.map (fun m => m.person_id)).eraseDups)


/-- run_all_members from scripts/analyses/run_all_members.py: the roster
record sequence written to both outputs.  The `end_date` column is
`fillna("")`-mutated before the term-overlap filter, so a missing end
date reaches the items as an empty string.  The `is_current` column is
not selected by this script and unused. -/
def runAllMembers (persons : List Person) (orgs : List Org)
    (memberships : List Membership) (posContent : List Char) :
    Except String (List RosterEntry) :=
  if dfWidth (rowsOfLines (pySplitlines posContent)) ≠ 16 then
    .error ("Unexpected poslanec.unl column count: "
      ++ toString (dfWidth (rowsOfLines (pySplitlines posContent))) ++ " (expected 16)")
  else
    match resolveCurrentTerm orgs with
    | .error m => .error m
    | .ok ct =>
      -- `if not term_since: raise`: only a falsy cell raises; a NaN
      -- founding date is truthy in Python and every later use wraps the
      -- value in `str()` (the overlap filter compares against "nan" and
      -- the image year becomes "nan").
      if ct.founding_date = some "" then .error "Current term missing founding_date"
      else
        match personsWithImage
            ⟨(splitOnChar '-' (pyStrCell ct.founding_date).data).headD []⟩
            (persons.filter (fun p =>
              (allPersonIds orgs memberships ct
                (pyStrCell ct.founding_date)).contains p.id)) with
        | .error m => .error m
        | .ok outImg => .ok (allRosterCore orgs memberships ct (pyStrCell ct.founding_date)
            ((rowsOfLines (pySplitlines posContent)).map mkFlagRow) outImg)


/-! ## Current-term metadata (scripts/analyses/run_current_term.py) -/

/-- The scan of `_term_number_from_raw_organy` over the raw organy
lines: skip empty and short lines, find the row of the current term's
numeric id, and accept only an abbreviation of shape `PSP<digits>`. -/
def termNumberGo (path cid : String) : List (List Char) → Except String String
  | [] => .error ("Current term org " ++ cid ++ " not found in " ++ path)
  | line :: rest =>
    if line.isEmpty then termNumberGo path cid rest
    else
      let cols := (splitOnChar '|' line).map (fun cs => (⟨cs⟩ : String))
      if cols.length < 4 then termNumberGo path cid rest
      else if cols.headD "" ≠ cid then termNumberGo path cid rest
      else if startsWithList (cols.getD 3 "").data "PSP".data
          && isDigitsList ((cols.getD 3 "").data.drop 3) then
        .ok ⟨(cols.getD 3 "").data.drop 3⟩
      else
        .error ("Unexpected abbreviation for current term org " ++ cols.headD ""
          ++ ": " ++ cols.getD 3 "")


/-- `_term_number_from_raw_organy` from run_current_term.py. -/
def termNumberFromRawOrgany (path : String) (content : List Char) (cid : String) :
    Except String String :=
  termNumberGo path cid (pySplitlines content)


/-- The Gregorian leap-year rule used by `datetime.date`. -/
def isLeapYear (y : Nat) : Bool :=
  y % 4 = 0 && (y % 100 ≠ 0 || y % 400 = 0)


/-- Days in a month, per `datetime.date` validation. -/
def daysInMonth (y m : Nat) : Nat :=
  if m = 2 then (if isLeapYear y then 29 else 28)
  else if m = 4 || m = 6 || m = 9 || m = 11 then 30
  else 31


/-- `datetime.date` argument validation (year 1-9999). -/
def isValidYmd (y m d : Nat) : Bool :=
  1 ≤ y && y ≤ 9999 && 1 ≤ m && m ≤ 12 && 1 ≤ d && d ≤ daysInMonth y m


/-- `date(...).isoformat()`. -/
def fmtYmd (y m d : Nat) : String :=
  pyZfill (toString y) 4 ++ "-" ++ pyZfill (toString m) 2 ++ "-" ++ pyZfill (toString d) 2


/-- `_add_years_iso` from run_current_term.py: shift the year, with the
Feb 29 to Feb 28 fallback on non-leap targets; invalid inputs raise. -/
def addYearsIso (d : String) (years : Nat) : Except String String :=
  match (splitOnChar '-' d.data).map (fun cs => (⟨cs⟩ : String)) with
  | [ys, ms, ds] =>
    match pyIntNat ys, pyIntNat ms, pyIntNat ds with
    | .ok y, .ok m, .ok dd =>
      if isValidYmd (y + years) m dd then .ok (fmtYmd (y + years) m dd)
      else if m = 2 && dd = 29 && isValidYmd (y + years) 2 28 then
        .ok (fmtYmd (y + years) 2 28)
      else .error "ValueError: day is out of range for month"
    | _, _, _ => .error "ValueError: invalid literal for int()"
  | _ => .error "ValueError: unpacking date parts"


/-- One `{scheme, identifier}` pair of the term metadata. -/
structure TermRef where
  scheme : String
  identifier : String
deriving DecidableEq


/-- The current-term metadata object written by run_current_term.py. -/
structure TermInfo where
  id : String
  name : String
  since : String
  «until» : Option String
  until_latest : String
  identifiers : List TermRef
deriving DecidableEq


/-- `until if until else None`. -/
def pyOrNone (v : Option String) : Option String :=
  match v with
  | some "" => none
  | x => x


/-- run_current_term from scripts/analyses/run_current_term.py. -/
def runCurrentTerm (orgs : List Org) (organyPath : String) (organyContent : List Char) :
    Except String TermInfo :=
  match resolveCurrentTerm orgs with
  | .error m => .error m
  | .ok r =>
    match r.founding_date with
    | none => .error "Current term missing founding_date (since)"
    | some since =>
      if since = "" then .error "Current term missing founding_date (since)"
      else
        match termNumberFromRawOrgany organyPath organyContent (lastColonPart r.id) with
        | .error m => .error m
        | .ok termNo =>
          match addYearsIso since 4 with
          | .error m => .error m
          | .ok ul =>
            .ok { id := r.id
                  name := (r.name.getD "") ++ " "
                    ++ (⟨(splitOnChar '-' since.data).headD []⟩ : String) ++ " -"
                  since := since
                  «until» := pyOrNone r.dissolution_date
                  until_latest := ul
                  identifiers := [⟨"psp", termNo⟩] }


/-- The explicit membership rows of a person in the current-term
organization. -/
def explicitTermRows (memberships : List Membership) (ctId pid : String) : List Membership :=
  memberships.filter (fun m => m.organization_id = ctId && m.person_id = pid)


/-- The parliament entry synthesized for a current person with no
explicit term membership: `[term_start, null]`. -/
def synthesizedParliamentItem (ct : Org) (ctSince : String) : MembershipItem :=
  { id := ct.id, name := ct.name, start_date := some ctSince, end_date := none }


/-- The parliament entry built from an explicit term-membership row. -/
def termParliamentItem (ct : Org) (m : Membership) : MembershipItem :=
  { id := ct.id, name := ct.name, start_date := m.start_date, end_date := m.end_date }


/-! ## Ballot Standardizer (scripts/standardize_votes.py)

`standardize_hl_votes` is embedded on the already-read row lists (the
file reads go through `read_unl`/`read_unl_iter` with enforced column
counts); the bounded-batch parquet writing only chunks the same record
sequence, so the outputs are the three record sequences. -/

/-- One `{url, note}` source reference. -/
structure SourceRef where
  url : String
  note : String
deriving DecidableEq


/-- The `extras` sub-object of vote events and motions. -/
structure VoteExtras where
  sitting_number : Option String
  voting_number : Option String
  agenda_item_number : Option String
deriving DecidableEq


/-- A canonical vote event. -/
structure VoteEvent where
  id : String
  identifier : String
  motion_id : String
  organization_id : String
  extras : VoteExtras
  start_date : Option String
  result : Option String
  sources : List SourceRef
deriving DecidableEq


/-- A canonical motion. -/
structure Motion where
  id : String
  identifier : String
  organization_id : String
  extras : VoteExtras
  date : Option String
  text : Option String
  result : Option String
  sources : List SourceRef
deriving DecidableEq


/-- A canonical vote. -/
structure Vote where
  vote_event_id : String
  voter_id : String
  option : String
deriving DecidableEq


/-- `(x or "").strip() or None` (strip first, then empty means null). -/
def noneIfEmpty (s : String) : Option String :=
  if s = "" then none else some s


/-- The fixed source URL of the vote dump. -/
def hlSrcUrl : String := "https://www.psp.cz/eknih/cdrom/opendata/hl-2025ps.zip"


/-- The void-vote id set built from zmatecne.unl: first fields of rows
that are non-empty and have a non-empty first field. -/
def voidIdsOf (zmatecneRows : List (List String)) : List String :=
  (zmatecneRows.filter (fun r => !r.isEmpty && r.headD "" ≠ "")).map (fun r => r.headD "")


/-- One iteration of the vote-event loop: a void id is skipped before
anything is emitted; otherwise the VoteEvent and Motion records are
built (the date helpers can raise). -/
def processHlasRow (voidIds : List String) (r : List String) :
    Except String (Option (VoteEvent × Motion)) :=
  let hid := r.headD ""
  if voidIds.contains hid then .ok none
  else
    let org := r.getD 1 ""
    let sitting := noneIfEmpty (pyStrip (r.getD 2 ""))
    let voteNo := noneIfEmpty (pyStrip (r.getD 3 ""))
    let agendaNo := noneIfEmpty (pyStrip (r.getD 4 ""))
    let resultCode := pyUpper (pyStrip (r.getD 14 ""))
    let veResult :=
      if resultCode = "A" then some "pass"
      else if resultCode = "R" then some "fail" else none
    let mResult :=
      if resultCode = "A" then some "passed"
      else if resultCode = "R" then some "failed" else none
    match toStartDate (r.getD 5 "") (r.getD 6 "") with
    | .error m => .error m
    | .ok sd =>
      match toDateHl (r.getD 5 "") with
      | .error m => .error m
      | .ok d =>
        .ok (some
          ({ id := "psp:vote-event:" ++ hid
             identifier := hid
             motion_id := "psp:motion:" ++ hid
             organization_id := "psp:org:" ++ org
             extras := ⟨sitting, voteNo, agendaNo⟩
             start_date := sd
             result := veResult
             sources := [⟨hlSrcUrl, "hl2025s.unl id_hlasovani=" ++ hid⟩] },
           { id := "psp:motion:" ++ hid
             identifier := hid
             organization_id := "psp:org:" ++ org
             extras := ⟨sitting, voteNo, agendaNo⟩
             date := d
             text := noneIfEmpty (pyStrip (r.getD 15 ""))
             result := mResult
             sources := [⟨hlSrcUrl, "hl2025s.unl id_hlasovani=" ++ hid⟩] }))


/-- The vote-event loop over hl2025s.unl rows. -/
def buildEvents (voidIds : List String) : List (List String) →
    Except String (List (VoteEvent × Motion))
  | [] => .ok []
  | r :: rest =>
    match processHlasRow voidIds r with
    | .error m => .error m
    | .ok none => buildEvents voidIds rest
    | .ok (some p) =>
      match buildEvents voidIds rest with
      | .error m => .error m
      | .ok tail => .ok (p :: tail)


/-- The numeric sort key `int(x["identifier"])` (guarded below; a
non-numeric identifier raises in Python). -/
def identifierNat (s : String) : Nat :=
  match pyIntNat s with
  | .ok n => n
  | .error _ => 0


/-- `vote_events.sort(key=lambda x: int(x["identifier"]))`. -/
def sortVoteEventsByIdentifier (l : List VoteEvent) : Except String (List VoteEvent) :=
  if l.all (fun e => (pyIntNat e.identifier).isOk) then
    .ok (sortByLe (fun a b => decide (identifierNat a.identifier ≤ identifierNat b.identifier)) l)
  else .error "ValueError: invalid literal for int()"


/-- `motions.sort(key=lambda x: int(x["identifier"]))`. -/
def sortMotionsByIdentifier (l : List Motion) : Except String (List Motion) :=
  if l.all (fun m => (pyIntNat m.identifier).isOk) then
    .ok (sortByLe (fun a b => decide (identifierNat a.identifier ≤ identifierNat b.identifier)) l)
  else .error "ValueError: invalid literal for int()"


/-- The poslanec-to-person mapping
`{str(r[0]): str(r[1]) for r in poslanec_rows if len(r) >= 2 and r[0] and r[1]}`. -/
def poslanecToOsoba (rows : List (List String)) : List (String × String) :=
  (rows.filter (fun r => r.length ≥ 2 && r.headD "" ≠ "" && r.getD 1 "" ≠ "")).map
    (fun r => (r.headD "", r.getD 1 ""))


/-- The ballot loop: rows referencing an id outside the valid (non-void,
seen) set are skipped, rows without an id-mapping match are dropped, the
rest become Vote records. -/
def buildVotes (validIds : List String) (dict : List (String × String))
    (ballotRows : List (List String)) : List Vote :=
  ballotRows.filterMap (fun row =>
    let idPoslanec := row.headD ""
    let hid := row.getD 1 ""
    let code := row.getD 2 ""
    if validIds.contains hid then
      match dictGetLast dict idPoslanec with
      | some osoba =>
        if osoba = "" then none
        else some ⟨"psp:vote-event:" ++ hid, "psp:person:" ++ osoba, mapOption code⟩
      | none => none
    else none)


/-- `standardize_hl_votes` from scripts/standardize_votes.py, as the
three produced record sequences (vote events, motions, votes). -/
def standardizeHlVotes (hlasRows zmatecneRows poslanecRows ballotRows : List (List String)) :
    Except String (List VoteEvent × List Motion × List Vote) :=
  match buildEvents (voidIdsOf zmatecneRows) hlasRows with
  | .error m => .error m
  | .ok pairs =>
    match sortVoteEventsByIdentifier (pairs.map (fun p => p.1)) with
    | .error m => .error m
    | .ok ves =>
      match sortMotionsByIdentifier (pairs.map (fun p => p.2)) with
      | .error m => .error m
      | .ok ms =>
        .ok (ves, ms,
          buildVotes (pairs.map (fun p => p.1.identifier)) (poslanecToOsoba poslanecRows)
            ballotRows)


/-- Sample snapshot data: one person of the concrete scenario. -/
def samplePerson : Person :=
  { id := "psp:person:1", name := some "Jan Novák", given_name := some "Jan",
    family_name := some "Novák", birth_date := none, death_date := none,
    gender := some "male", identifiers := none, sources := none }


/-- Sample snapshot data: the person's club membership. -/
def sampleClubMembership : Membership :=
  { id := "psp:membership:1:201:2025-01-05:", person_id := "psp:person:1",
    organization_id := "psp:org:201", start_date := some "2025-01-05",
    end_date := none, sources := none }


/-- Sample snapshot data: the person's term membership. -/
def sampleTermMembership : Membership :=
  { id := "psp:membership:1:200:2025-01-01:", person_id := "psp:person:1",
    organization_id := "psp:org:200", start_date := some "2025-01-01",
    end_date := none, sources := none }


/-- Sample raw current-flag table: one 16-column row flagging the person
as current in term 200. -/
def samplePosContent : List Char := ("0|1|||200||||||||||1|\n").data


/-- The current-roster output on the sample data. -/
def sampleCurrentRoster : List RosterEntry :=
  match runCurrentMembers [samplePerson] [sampleTermOrg, sampleClubOrg]
      [sampleClubMembership] samplePosContent with
  | .ok r => r
  | .error _ => []


/-- The all-roster output on the sample data. -/
def sampleAllRoster : List RosterEntry :=
  match runAllMembers [samplePerson] [sampleTermOrg, sampleClubOrg]
      [sampleTermMembership, sampleClubMembership] samplePosContent with
  | .ok r => r
  | .error _ => []


/-- The first entry of the sample current roster. -/
def sampleRosterHead : RosterEntry :=
  sampleCurrentRoster.headD ⟨samplePerson, none, ⟨[], [], [], []⟩⟩


/-- Sample hl2025s rows: vote events 1 and 2 (unused columns absent,
Python indexing past the row end modelled by getD ""). -/
def c1Hlas : List (List String) := [["1", "200"], ["2", "200"]]


/-- Sample zmatecne rows: vote 2 is void. -/
def c1Zmat : List (List String) := [["2"]]


/-- Sample poslanec rows: id_poslanec 7 maps to id_osoba 9. -/
def c1Posl : List (List String) := [["7", "9"]]


/-- Sample ballot rows: one ballot on the kept event, one on the void
event. -/
def c1Ballots : List (List String) := [["7", "1", "A"], ["7", "2", "B"]]


/-- The concrete standardizer output on the sample rows. -/
def c1SampleOut : List VoteEvent × List Motion × List Vote :=
  match standardizeHlVotes c1Hlas c1Zmat c1Posl c1Ballots with
  | .ok r => r
  | .error _ => ([], [], [])


/-- `splitOnChar` always returns at least one chunk. -/
theorem splitOnChar_ne_nil (sep : Char) (s : List Char) : splitOnChar sep s ≠ [] := by
  induction s with
  | nil => simp [splitOnChar]
  | cons c rest ih =>
    simp only [splitOnChar]
    split
    · simp
    · match h : splitOnChar sep rest with
      | [] => exact absurd h ih
      | hh :: tt => simp [h]


theorem listLe_total (a b : List Char) : listLe a b || listLe b a := by
  induction a generalizing b with
  | nil => simp [listLe]
  | cons x xs ih =>
    cases b with
    | nil => simp [listLe]
    | cons y ys =>
      simp only [listLe, Bool.or_eq_true, Bool.and_eq_true, decide_eq_true_eq]
      rcases Nat.lt_trichotomy x.toNat y.toNat with h | h | h
      · exact Or.inl (Or.inl h)
      · have hxy : x = y := Char.eq_of_val_eq (UInt32.toNat.inj h)
        rcases Bool.or_eq_true _ _ |>.mp (ih ys) with h1 | h1
        · exact Or.inl (Or.inr ⟨hxy, h1⟩)
        · exact Or.inr (Or.inr ⟨hxy.symm, h1⟩)
      · exact Or.inr (Or.inl h)


theorem listLe_trans (a b c : List Char) (h1 : listLe a b) (h2 : listLe b c) :
    listLe a c := by
  induction a generalizing b c with
  | nil => simp [listLe]
  | cons x xs ih =>
    cases b with
    | nil => simp [listLe] at h1
    | cons y ys =>
      cases c with
      | nil => simp [listLe] at h2
      | cons z zs =>
        simp only [listLe, Bool.or_eq_true, Bool.and_eq_true, decide_eq_true_eq] at h1 h2 ⊢
        rcases h1 with h1 | ⟨h1e, h1r⟩
        · rcases h2 with h2 | ⟨h2e, h2r⟩
          · exact Or.inl (Nat.lt_trans h1 h2)
          · exact Or.inl (h2e ▸ h1)
        · rcases h2 with h2 | ⟨h2e, h2r⟩
          · exact Or.inl (h1e ▸ h2)
          · exact Or.inr ⟨h1e.trans h2e, ih ys zs h1r h2r⟩


theorem listLe_antisymm (a b : List Char) (h1 : listLe a b) (h2 : listLe b a) :
    a = b := by
  induction a generalizing b with
  | nil =>
    cases b with
    | nil => rfl
    | cons y ys => simp [listLe] at h2
  | cons x xs ih =>
    cases b with
    | nil => simp [listLe] at h1
    | cons y ys =>
      simp only [listLe, Bool.or_eq_true, Bool.and_eq_true, decide_eq_true_eq] at h1 h2
      rcases h1 with h1 | ⟨h1e, h1r⟩
      · rcases h2 with h2 | ⟨h2e, h2r⟩
        · exact absurd h1 (Nat.lt_asymm h2)
        · exact absurd h1 (h2e ▸ Nat.lt_irrefl _)
      · rcases h2 with h2 | ⟨h2e, h2r⟩
        · exact absurd h2 (h1e ▸ Nat.lt_irrefl _)
        · exact h1e ▸ congrArg (x :: ·) (ih ys h1r h2r)


theorem listLe_refl (a : List Char) : listLe a a := by
  induction a with
  | nil => simp [listLe]
  | cons x xs ih => simp [listLe, ih]


theorem strLeB_total (a b : String) : strLeB a b || strLeB b a := listLe_total _ _


theorem strLeB_trans (a b c : String) (h1 : strLeB a b) (h2 : strLeB b c) :
    strLeB a c := listLe_trans _ _ _ h1 h2


theorem strLeB_antisymm (a b : String) (h1 : strLeB a b) (h2 : strLeB b a) : a = b :=
  String.ext (listLe_antisymm _ _ h1 h2)


theorem strLeB_refl (a : String) : strLeB a a := listLe_refl _


theorem listLt_or_eq_of_listLe (a b : List Char) (h : listLe a b) :
    listLt a b ∨ a = b := by
  induction a generalizing b with
  | nil =>
    cases b with
    | nil => exact Or.inr rfl
    | cons y ys => exact Or.inl (by simp [listLt])
  | cons x xs ih =>
    cases b with
    | nil => simp [listLe] at h
    | cons y ys =>
      simp only [listLe, Bool.or_eq_true, Bool.and_eq_true, decide_eq_true_eq] at h
      simp only [listLt, Bool.or_eq_true, Bool.and_eq_true, decide_eq_true_eq]
      rcases h with h | ⟨he2, hr⟩
      · exact Or.inl (Or.inl h)
      · rcases ih ys hr with h2 | h2
        · exact Or.inl (Or.inr ⟨he2, h2⟩)
        · exact Or.inr (by rw [he2, h2])


theorem strLtB_or_eq_of_strLeB (a b : String) (h : strLeB a b) :
    strLtB a b ∨ a = b := by
  rcases listLt_or_eq_of_listLe a.data b.data h with h2 | h2
  · exact Or.inl h2
  · exact Or.inr (String.ext h2)


/-- Splitting a list that does not contain the separator yields the
one-element chunk list. -/
theorem splitOnChar_of_not_mem (sep : Char) (s : List Char) (h : ∀ c ∈ s, c ≠ sep) :
    splitOnChar sep s = [s] := by
  induction s with
  | nil => rfl
  | cons c rest ih =>
    have hc : c ≠ sep := h c (List.mem_cons_self c rest)
    have hr : splitOnChar sep rest = [rest] :=
      ih (fun x hx => h x (List.mem_cons_of_mem c hx))
    simp [splitOnChar, hc, hr]


/-- Splitting peels off a leading separator-free chunk. -/
theorem splitOnChar_append_sep (sep : Char) (a rest : List Char) (h : ∀ c ∈ a, c ≠ sep) :
    splitOnChar sep (a ++ sep :: rest) = a :: splitOnChar sep rest := by
  induction a with
  | nil => simp [splitOnChar]
  | cons c t ih =>
    have hc : c ≠ sep := h c (List.mem_cons_self c t)
    have hr := ih (fun x hx => h x (List.mem_cons_of_mem c hx))
    simp only [List.cons_append, splitOnChar, hc, if_neg hc]
    rw [show t.append (sep :: rest) = t ++ sep :: rest from rfl, hr]
    simp


/-- Single-character containment agrees with list membership. -/
theorem containsList_singleton (c : Char) (s : List Char) :
    containsList s [c] = true ↔ c ∈ s := by
  induction s with
  | nil => simp [containsList, List.isEmpty]
  | cons h t ih =>
    simp only [containsList, startsWithList, Bool.or_eq_true, Bool.and_eq_true,
      decide_eq_true_eq, List.mem_cons]
    constructor
    · rintro (⟨he, _⟩ | hmem)
      · exact Or.inl he.symm
      · exact Or.inr (ih.mp hmem)
    · rintro (he | hmem)
      · refine Or.inl ⟨he.symm, ?_⟩
        simp [startsWithList]
      · exact Or.inr (ih.mpr hmem)


theorem exceptRows_map (f : List (List String) → List (List String))
    (e : Except String (List (List String))) :
    exceptRows (Except.map f e) = (exceptRows e).map f := by
  cases e <;> rfl


theorem readUnlIterLines_index (path : String) (n : Option Nat)
    (lines : List (List Char)) (i j : Nat) :
    exceptRows (readUnlIterLines path n lines i)
      = exceptRows (readUnlIterLines path n lines j) := by
  induction lines generalizing i j with
  | nil => rfl
  | cons l rest ih =>
    cases n with
    | none =>
      simp only [readUnlIterLines]
      by_cases hemp : l.isEmpty
      · rw [if_pos hemp, if_pos hemp]
        exact ih (i + 1) (j + 1)
      · rw [if_neg hemp, if_neg hemp, exceptRows_map, exceptRows_map, ih (i + 1) (j + 1)]
    | some nn =>
      simp only [readUnlIterLines]
      by_cases hemp : l.isEmpty
      · rw [if_pos hemp, if_pos hemp]
        exact ih (i + 1) (j + 1)
      · rw [if_neg hemp, if_neg hemp]
        by_cases hlen : ((splitOnChar '|' l).map (fun cs => (⟨cs⟩ : String))).length ≠ nn
        · rw [if_pos hlen, if_pos hlen]
          rfl
        · rw [if_neg hlen, if_neg hlen, exceptRows_map, exceptRows_map, ih (i + 1) (j + 1)]


theorem readUnlIterLines_none (path : String) (lines : List (List Char)) (i : Nat) :
    readUnlIterLines path none lines i = .ok (rowsOfLines lines) := by
  induction lines generalizing i with
  | nil => rfl
  | cons l rest ih =>
    simp only [readUnlIterLines]
    by_cases hemp : l.isEmpty
    · rw [if_pos hemp, ih (i + 1)]
      have h2 : (!l.isEmpty) = false := by simp [hemp]
      simp [rowsOfLines, List.filter_cons, h2]
    · rw [if_neg hemp, ih (i + 1)]
      have h2 : (!l.isEmpty) = true := by simp [hemp]
      simp [rowsOfLines, List.filter_cons, h2, Except.map]


theorem readUnlIterLines_allOk (path : String) (n : Nat) (lines : List (List Char)) (i : Nat)
    (h : ∀ l ∈ lines, l ≠ [] → (splitOnChar '|' l).length = n) :
    readUnlIterLines path (some n) lines i = .ok (rowsOfLines lines) := by
  induction lines generalizing i with
  | nil => rfl
  | cons l rest ih =>
    have hrest : ∀ l ∈ rest, l ≠ [] → (splitOnChar '|' l).length = n :=
      fun x hx => h x (List.mem_cons_of_mem l hx)
    simp only [readUnlIterLines]
    by_cases hemp : l.isEmpty
    · rw [if_pos hemp, ih (i + 1) hrest]
      have h2 : (!l.isEmpty) = false := by simp [hemp]
      simp [rowsOfLines, List.filter_cons, h2]
    · have hne : l ≠ [] := by simpa [List.isEmpty_iff] using hemp
      have hlen : ((splitOnChar '|' l).map (fun cs => (⟨cs⟩ : String))).length = n := by
        rw [List.length_map]
        exact h l (List.mem_cons_self l rest) hne
      rw [if_neg hemp, if_neg (by simp [hlen]), ih (i + 1) hrest]
      have h2 : (!l.isEmpty) = true := by simp [hemp]
      simp [rowsOfLines, List.filter_cons, h2, Except.map]


theorem readUnlIterLines_bad (path : String) (n : Nat) (lines : List (List Char)) (i : Nat)
    (h : ∃ l ∈ lines, l ≠ [] ∧ (splitOnChar '|' l).length ≠ n) :
    ∃ r got, readUnlIterLines path (some n) lines i = .error (unlIterMsg path r n got)
      ∧ got ≠ n := by
  induction lines generalizing i with
  | nil => simp at h
  | cons l rest ih =>
    simp only [readUnlIterLines]
    by_cases hemp : l.isEmpty
    · rw [if_pos hemp]
      refine ih (i + 1) ?_
      rcases h with ⟨x, hx, hxne, hxlen⟩
      rcases List.mem_cons.mp hx with he | hx2
      · exact absurd (List.isEmpty_iff.mp hemp) (he ▸ hxne)
      · exact ⟨x, hx2, hxne, hxlen⟩
    · rw [if_neg hemp]
      have hml : ((splitOnChar '|' l).map (fun cs => (⟨cs⟩ : String))).length
          = (splitOnChar '|' l).length := List.length_map _ _
      by_cases hlen : (splitOnChar '|' l).length = n
      · rw [if_neg (by rw [hml]; simpa using hlen)]
        have hx : ∃ x ∈ rest, x ≠ [] ∧ (splitOnChar '|' x).length ≠ n := by
          rcases h with ⟨x, hx, hxne, hxlen⟩
          rcases List.mem_cons.mp hx with he | hx2
          · exact absurd (he.symm ▸ hlen) hxlen
          · exact ⟨x, hx2, hxne, hxlen⟩
        rcases ih (i + 1) hx with ⟨r, got, herr, hgot⟩
        exact ⟨r, got, by rw [herr]; rfl, hgot⟩
      · rw [if_pos (by rw [hml]; exact hlen)]
        refine ⟨i, _, rfl, ?_⟩
        rw [hml]
        exact hlen


theorem badCountOf_eq_zero_iff (lines : List (List Char)) (n : Nat) :
    badCountOf lines n = 0 ↔ ∀ l ∈ lines, l ≠ [] → (splitOnChar '|' l).length = n := by
  unfold badCountOf
  rw [List.length_eq_zero, List.filter_eq_nil_iff]
  constructor
  · intro hall l hl hne
    have hmem : ((splitOnChar '|' l).map (fun cs => (⟨cs⟩ : String))) ∈ rowsOfLines lines := by
      unfold rowsOfLines
      refine List.mem_map_of_mem _ ?_
      refine List.mem_filter.mpr ⟨hl, ?_⟩
      simp [List.isEmpty_iff, hne]
    have := hall _ hmem
    simp only [decide_not, Bool.not_eq_true', decide_eq_false_iff_not, Decidable.not_not] at this
    simpa using this
  · intro hall r hr
    unfold rowsOfLines at hr
    rcases List.mem_map.mp hr with ⟨l, hl, hform⟩
    have hl2 := List.mem_filter.mp hl
    have hne : l ≠ [] := by
      have := hl2.2
      simp only [Bool.not_eq_true'] at this
      simpa [List.isEmpty_iff] using this
    have := hall l hl2.1 hne
    subst hform
    simp [this]


theorem dropWhile_newline_of_not_mem (l : List Char) (h : ∀ c ∈ l, c ≠ '\n') :
    l.dropWhile (fun c => c = '\n') = l := by
  cases l with
  | nil => rfl
  | cons a t =>
    have ha : a ≠ '\n' := h a (List.mem_cons_self a t)
    simp [List.dropWhile_cons, ha]


theorem pyRstripNewline_of_not_mem (acc : List Char) (h : ∀ c ∈ acc, c ≠ '\n') :
    pyRstripNewline acc.reverse = acc.reverse := by
  unfold pyRstripNewline
  rw [List.reverse_reverse, dropWhile_newline_of_not_mem acc h]


theorem pyRstripNewline_newline (acc : List Char) (h : ∀ c ∈ acc, c ≠ '\n') :
    pyRstripNewline (('\n' :: acc).reverse) = acc.reverse := by
  unfold pyRstripNewline
  rw [List.reverse_reverse]
  simp [List.dropWhile_cons, dropWhile_newline_of_not_mem acc h]


theorem pyReadLinesGo_eq_pySplitlinesGo (s acc : List Char)
    (hs : ∀ c ∈ s, isLineBreakChar c = true → c = '\n')
    (hacc : ∀ c ∈ acc, c ≠ '\n') :
    (pyReadLinesGo s acc false).map pyRstripNewline = pySplitlinesGo s acc false := by
  induction s generalizing acc with
  | nil =>
    by_cases hemp : acc.isEmpty
    · simp [pyReadLinesGo, pySplitlinesGo, hemp]
    · simp [pyReadLinesGo, pySplitlinesGo, hemp, pyRstripNewline_of_not_mem acc hacc]
  | cons c rest ih =>
    have hrest : ∀ x ∈ rest, isLineBreakChar x = true → x = '\n' :=
      fun x hx => hs x (List.mem_cons_of_mem c hx)
    have hcr : c ≠ '\r' := by
      intro he
      have := hs c (List.mem_cons_self c rest) (by rw [he]; decide)
      rw [he] at this
      exact absurd this (by decide)
    by_cases hn : c = '\n'
    · subst hn
      have h1 : pyReadLinesGo ('\n' :: rest) acc false
          = ('\n' :: acc).reverse :: pyReadLinesGo rest [] false := by
        simp [pyReadLinesGo]
      have h2 : pySplitlinesGo ('\n' :: rest) acc false
          = acc.reverse :: pySplitlinesGo rest [] false := by
        simp [pySplitlinesGo, isLineBreakChar]
      rw [h1, h2, List.map_cons, ih [] hrest (by simp),
        pyRstripNewline_newline acc hacc]
    · have hnb : isLineBreakChar c = false := by
        rw [Bool.eq_false_iff]
        intro hb
        exact hn (hs c (List.mem_cons_self c rest) hb)
      have h1 : pyReadLinesGo (c :: rest) acc false
          = pyReadLinesGo rest (c :: acc) false := by
        simp [pyReadLinesGo, hcr, hn]
      have h2 : pySplitlinesGo (c :: rest) acc false
          = pySplitlinesGo rest (c :: acc) false := by
        simp [pySplitlinesGo, hcr, hnb]
      rw [h1, h2]
      refine ih (c :: acc) hrest (fun x hx => ?_)
      rcases List.mem_cons.mp hx with he | hx2
      · rw [he]
        exact hn
      · exact hacc x hx2


/-- With `\n` as the only line break present, the two readers see the
same line sequence. -/
theorem pyIterLines_eq_pySplitlines (content : List Char)
    (h : onlyLFBreaks content = true) :
    pyIterLines content = pySplitlines content := by
  unfold pyIterLines pySplitlines
  refine pyReadLinesGo_eq_pySplitlinesGo content [] ?_ (by simp)
  intro c hc hb
  have := List.all_eq_true.mp h c hc
  simp only [Bool.or_eq_true, Bool.not_eq_true', decide_eq_true_eq] at this
  rcases this with h1 | h1
  · rw [h1] at hb
    cases hb
  · exact h1


/-- Inserting an empty line leaves the materialized rows untouched. -/
theorem rowsOfLines_empty_line (l1 l2 : List (List Char)) :
    rowsOfLines (l1 ++ [] :: l2) = rowsOfLines (l1 ++ l2) := by
  unfold rowsOfLines
  rw [List.filter_append, List.filter_append, List.filter_cons]
  simp


theorem insertSorted_perm (le : α → α → Bool) (a : α) (l : List α) :
    List.Perm (insertSorted le a l) (a :: l) := by
  induction l with
  | nil => exact List.Perm.refl _
  | cons b t ih =>
    simp only [insertSorted]
    split
    · exact List.Perm.refl _
    · exact (List.Perm.cons b ih).trans (List.Perm.swap a b t)


theorem sortByLe_perm (le : α → α → Bool) (l : List α) : List.Perm (sortByLe le l) l := by
  induction l with
  | nil => exact List.Perm.refl _
  | cons a t ih =>
    exact (insertSorted_perm le a (sortByLe le t)).trans (List.Perm.cons a ih)


theorem mem_sortByLe (le : α → α → Bool) (l : List α) (x : α) :
    x ∈ sortByLe le l ↔ x ∈ l :=
  (sortByLe_perm le l).mem_iff


theorem length_sortByLe (le : α → α → Bool) (l : List α) :
    (sortByLe le l).length = l.length :=
  (sortByLe_perm le l).length_eq


theorem insertSorted_pairwise (le : α → α → Bool)
    (total : ∀ a b, le a b || le b a) (trans : ∀ a b c, le a b → le b c → le a c)
    (a : α) (l : List α) (h : l.Pairwise (fun x y => le x y = true)) :
    (insertSorted le a l).Pairwise (fun x y => le x y = true) := by
  induction l with
  | nil => simp [insertSorted]
  | cons b t ih =>
    simp only [insertSorted]
    split
    · refine List.Pairwise.cons ?_ h
      intro x hx
      rcases List.mem_cons.mp hx with he | hx2
      · subst he
        assumption
      · have hab : le a b = true := by assumption
        exact trans a b x hab ((List.pairwise_cons.mp h).1 x hx2)
    · have hba : le b a = true := by
        rcases Bool.or_eq_true _ _ |>.mp (total a b) with h1 | h1
        · exact absurd h1 (by assumption)
        · exact h1
      rcases List.pairwise_cons.mp h with ⟨hbt, ht⟩
      refine List.Pairwise.cons ?_ (ih ht)
      intro x hx
      rcases (insertSorted_perm le a t).mem_iff.mp hx with hx2
      rcases List.mem_cons.mp hx2 with he | hx3
      · subst he
        exact hba
      · exact hbt x hx3


theorem sortByLe_pairwise (le : α → α → Bool)
    (total : ∀ a b, le a b || le b a) (trans : ∀ a b c, le a b → le b c → le a c)
    (l : List α) : (sortByLe le l).Pairwise (fun x y => le x y = true) := by
  induction l with
  | nil => simp [sortByLe]
  | cons a t ih => exact insertSorted_pairwise le total trans a (sortByLe le t) ih


/-! ## Claims C4, C5, C9 -/

theorem pyZfill_of_le (s : String) (w : Nat) (h : w ≤ s.length) : pyZfill s w = s := by
  unfold pyZfill
  simp [Nat.le_of_eq, h]


/-- A string whose char list is nonempty is not the empty string. -/
theorem ne_empty_of_data_ne_nil (s : String) (h : s.data ≠ []) : s ≠ "" := by
  intro he
  exact h (by rw [he])


/-- C4 counterexample: `"x-y"` is neither a `DD.MM.YYYY` value nor a
`YYYY-MM-DD[ HH]` value, yet the parser returns it verbatim instead of
the absent date the claim requires for "any other shape". -/
theorem c4_counterexample :
    parsePspDate "x-y" = some "x-y" ∧ (some "x-y" : Option String) ≠ none := by
  constructor
  · decide
  · decide


/-- C4 (amended): `DD.MM.YYYY` values parse to zero-padded ISO
(`"09.07.1994"` to `"1994-07-09"`), `YYYY-MM-DD[ HH]` values parse to
their date part, and the empty string parses to an absent date; the
recognition is purely syntactic and total (never an error): any value
with exactly three dot-separated parts is rearranged, any other
dash-containing value is truncated at the first space and returned even
when it is not a well-formed date, and a value with neither shape yields
an absent date. -/
theorem c4_date_parsing :
    (parsePspDate "09.07.1994" = some "1994-07-09" ∧
     parsePspDate "9.7.1994" = some "1994-07-09" ∧
     parsePspDate "2009-11-04 00" = some "2009-11-04" ∧
     parsePspDate "" = none) ∧
    (∀ dd mm yyyy : String,
      (∀ c ∈ dd.data, c ≠ '.') → (∀ c ∈ mm.data, c ≠ '.') → (∀ c ∈ yyyy.data, c ≠ '.') →
      parsePspDate (dd ++ "." ++ mm ++ "." ++ yyyy) =
        some (yyyy ++ "-" ++ pyZfill mm 2 ++ "-" ++ pyZfill dd 2)) ∧
    (∀ datePart hh : String,
      containsList datePart.data ['-'] = true →
      (∀ c ∈ datePart.data, c ≠ '.' ∧ c ≠ ' ') → (∀ c ∈ hh.data, c ≠ '.') →
      parsePspDate (datePart ++ " " ++ hh) = some datePart) ∧
    (∀ d : String,
      containsList d.data ['-'] = true → (∀ c ∈ d.data, c ≠ '.' ∧ c ≠ ' ') →
      parsePspDate d = some d) ∧
    (∀ d : String,
      ¬(containsList d.data ['.'] = true ∧ (splitOnChar '.' d.data).length = 3) →
      containsList d.data ['-'] = false →
      parsePspDate d = none) := by
  refine ⟨⟨by decide, by decide, by decide, by decide⟩, ?_, ?_, ?_, ?_⟩
  · intro dd mm yyyy hdd hmm hyyyy
    have hdata : (dd ++ "." ++ mm ++ "." ++ yyyy).data
        = dd.data ++ '.' :: (mm.data ++ '.' :: yyyy.data) := by
      simp [String.data_append]
    have hsplit : splitOnChar '.' (dd ++ "." ++ mm ++ "." ++ yyyy).data
        = [dd.data, mm.data, yyyy.data] := by
      rw [hdata, splitOnChar_append_sep '.' dd.data _ hdd,
        splitOnChar_append_sep '.' mm.data _ hmm,
        splitOnChar_of_not_mem '.' yyyy.data hyyyy]
    have hdot : containsList (dd ++ "." ++ mm ++ "." ++ yyyy).data ['.'] = true := by
      rw [containsList_singleton, hdata]
      exact List.mem_append_right _ (List.mem_cons_self _ _)
    have hne : (dd ++ "." ++ mm ++ "." ++ yyyy) ≠ "" := by
      refine ne_empty_of_data_ne_nil _ ?_
      rw [hdata]
      intro hcon
      have : '.' ∈ ([] : List Char) := by
        rw [← hcon]
        exact List.mem_append_right _ (List.mem_cons_self _ _)
      simp at this
    unfold parsePspDate
    rw [if_neg hne, hsplit, hdot]
    simp
  · intro datePart hh hdash hdp hhh
    have hdata : (datePart ++ " " ++ hh).data = datePart.data ++ ' ' :: hh.data := by
      simp [String.data_append]
    have hnodot : containsList (datePart ++ " " ++ hh).data ['.'] = false := by
      rw [Bool.eq_false_iff]
      intro hcon
      have := (containsList_singleton _ _).mp hcon
      rw [hdata] at this
      rcases List.mem_append.mp this with hin | hin
      · exact (hdp _ hin).1 rfl
      · rcases List.mem_cons.mp hin with he | hin
        · exact absurd he (by decide)
        · exact hhh _ hin rfl
    have hdash2 : containsList (datePart ++ " " ++ hh).data ['-'] = true := by
      rw [containsList_singleton, hdata]
      exact List.mem_append_left _ ((containsList_singleton _ _).mp hdash)
    have hne : (datePart ++ " " ++ hh) ≠ "" := by
      refine ne_empty_of_data_ne_nil _ ?_
      rw [hdata]
      intro hcon
      have : ' ' ∈ ([] : List Char) := by
        rw [← hcon]
        exact List.mem_append_right _ (List.mem_cons_self _ _)
      simp at this
    have hspace : splitOnChar ' ' (datePart.data ++ ' ' :: hh.data)
        = datePart.data :: splitOnChar ' ' hh.data :=
      splitOnChar_append_sep ' ' datePart.data hh.data (fun c hc => (hdp c hc).2)
    unfold parsePspDate
    rw [if_neg hne, hnodot, hdash2]
    simp [hdata, hspace]
  · intro d hdash hd
    have hnodot : containsList d.data ['.'] = false := by
      rw [Bool.eq_false_iff]
      intro hcon
      exact (hd _ ((containsList_singleton _ _).mp hcon)).1 rfl
    have hne : d ≠ "" := by
      refine ne_empty_of_data_ne_nil _ ?_
      intro hcon
      have := (containsList_singleton _ _).mp hdash
      rw [hcon] at this
      simp at this
    have hsplit : splitOnChar ' ' d.data = [d.data] :=
      splitOnChar_of_not_mem ' ' d.data (fun c hc => (hd c hc).2)
    unfold parsePspDate
    rw [if_neg hne, hnodot, hdash]
    simp [hsplit]
  · intro d hnot3 hnodash
    unfold parsePspDate
    by_cases hne : d = ""
    · simp [hne]
    · rw [if_neg hne]
      by_cases hdot : containsList d.data ['.'] = true
      · have hlen : ¬((splitOnChar '.' d.data).length = 3) := fun hl => hnot3 ⟨hdot, hl⟩
        rw [hdot, hnodash]
        simp only [Bool.true_and]
        rw [if_neg (by simpa using hlen)]
        simp
      · rw [Bool.not_eq_true] at hdot
        rw [hdot, hnodash]
        simp


/-- C4 witness: the amended theorem applied at concrete inputs. -/
theorem c4_date_parsing_witness :
    parsePspDate ("09" ++ "." ++ "07" ++ "." ++ "1994")
      = some ("1994" ++ "-" ++ pyZfill "07" 2 ++ "-" ++ pyZfill "09" 2) ∧
    parsePspDate "foo" = none :=
  ⟨c4_date_parsing.2.1 "09" "07" "1994" (by decide) (by decide) (by decide),
   c4_date_parsing.2.2.2.2 "foo" (by decide) (by decide)⟩


/-- C5 counterexample: the claim requires unmapped gender codes
(including the empty string) to parse to the explicit value `"unknown"`;
the code returns an absent value instead. -/
theorem c5_counterexample :
    parsePspGender "" = none ∧ (none : Option String) ≠ some "unknown" := by
  constructor
  · decide
  · decide


/-- C5 (amended): gender parsing is a closed case-insensitive mapping of
single-letter codes (`M`/`m` to male, `Z`/`z`/`Ž`/`ž` to female); every
other input, including the empty string, parses to an explicit absent
value (`none`), never silently defaulted to one gender — the result is
always male, female or absent. -/
theorem c5_gender_parsing :
    (parsePspGender "M" = some "male" ∧ parsePspGender "m" = some "male" ∧
     parsePspGender "Z" = some "female" ∧ parsePspGender "z" = some "female" ∧
     parsePspGender "Ž" = some "female" ∧ parsePspGender "ž" = some "female" ∧
     parsePspGender "" = none) ∧
    (∀ g : String,
      parsePspGender g = some "male" ∨ parsePspGender g = some "female" ∨
      parsePspGender g = none) ∧
    (∀ g : String,
      pyUpper (pyStrip g) ≠ "M" → pyUpper (pyStrip g) ≠ "Z" → pyUpper (pyStrip g) ≠ "Ž" →
      parsePspGender g = none) := by
  refine ⟨⟨by decide, by decide, by decide, by decide, by decide, by decide, by decide⟩, ?_, ?_⟩
  · intro g
    simp only [parsePspGender]
    split
    · exact Or.inr (Or.inr rfl)
    · split
      · exact Or.inl rfl
      · split
        · exact Or.inr (Or.inl rfl)
        · exact Or.inr (Or.inr rfl)
  · intro g hm hz hzh
    simp [parsePspGender, hm, hz, hzh]


/-- C5 witness: the amended theorem applied at a concrete input. -/
theorem c5_gender_parsing_witness :
    parsePspGender "X" = none :=
  c5_gender_parsing.2.2 "X" (by decide) (by decide) (by decide)


/-- C9: the ballot option-code mapping sends `A`,`B`,`C`,`F`,`@`,`M`,`W`
to the seven canonical options, is case-insensitive on the letter codes,
maps the unrecognized code `Z` to `"unknown"`, and is total: every input
yields one of the eight canonical strings (no error, nothing dropped). -/
theorem c9_option_mapping :
    (mapOption "A" = "yes" ∧ mapOption "B" = "no" ∧ mapOption "C" = "abstain" ∧
     mapOption "F" = "not voting" ∧ mapOption "@" = "absent" ∧ mapOption "M" = "excused" ∧
     mapOption "W" = "not member" ∧ mapOption "Z" = "unknown") ∧
    (mapOption "a" = "yes" ∧ mapOption "b" = "no" ∧ mapOption "c" = "abstain" ∧
     mapOption "f" = "not voting" ∧ mapOption "m" = "excused" ∧ mapOption "w" = "not member" ∧
     mapOption "z" = "unknown") ∧
    (∀ code : String,
      mapOption code ∈ (["yes", "no", "abstain", "not voting", "absent", "excused",
        "not member", "unknown"] : List String)) := by
  refine ⟨⟨by decide, by decide, by decide, by decide, by decide, by decide, by decide,
    by decide⟩,
    ⟨by decide, by decide, by decide, by decide, by decide, by decide, by decide⟩, ?_⟩
  intro code
  simp only [mapOption]
  split
  · simp
  · split
    · simp
    · split
      · simp
      · split
        · simp
        · split
          · simp
          · split
            · simp
            · split
              · simp
              · simp


/-- C6: the Raw Record Reader skips empty lines silently in both modes
(inserting an empty line changes no produced row), and when any
non-empty line splits to a deviant field count, the materialized mode
fails with the error naming the file and the deviant row count while the
streaming mode fails with the error naming the file, row and count —
neither emits a result. -/
theorem c6_raw_reader_schema :
    (∀ path l1 l2 n, readUnlLines path (l1 ++ [] :: l2) n = readUnlLines path (l1 ++ l2) n) ∧
    (∀ path n l1 l2 i, exceptRows (readUnlIterLines path n (l1 ++ [] :: l2) i)
        = exceptRows (readUnlIterLines path n (l1 ++ l2) i)) ∧
    (∀ path lines n, (∃ l ∈ lines, l ≠ [] ∧ (splitOnChar '|' l).length ≠ n) →
      (readUnlLines path lines (some n)
          = .error (unlSchemaMsg path (badCountOf lines n) n) ∧
        badCountOf lines n ≠ 0) ∧
      (∀ i, ∃ r got,
        readUnlIterLines path (some n) lines i = .error (unlIterMsg path r n got) ∧ got ≠ n)) := by
  refine ⟨?_, ?_, ?_⟩
  · intro path l1 l2 n
    have hrows := rowsOfLines_empty_line l1 l2
    unfold readUnlLines badCountOf
    rw [hrows]
  · intro path n l1 l2 i
    induction l1 generalizing i with
    | nil =>
      have h1 : readUnlIterLines path n (([] : List Char) :: l2) i
          = readUnlIterLines path n l2 (i + 1) := by
        simp [readUnlIterLines]
      rw [List.nil_append, List.nil_append, h1]
      exact readUnlIterLines_index path n l2 (i + 1) i
    | cons l t ih =>
      rw [List.cons_append, List.cons_append]
      cases n with
      | none =>
        simp only [readUnlIterLines]
        by_cases hemp : l.isEmpty
        · rw [if_pos hemp, if_pos hemp]
          exact ih (i + 1)
        · rw [if_neg hemp, if_neg hemp, exceptRows_map, exceptRows_map, ih (i + 1)]
      | some nn =>
        simp only [readUnlIterLines]
        by_cases hemp : l.isEmpty
        · rw [if_pos hemp, if_pos hemp]
          exact ih (i + 1)
        · rw [if_neg hemp, if_neg hemp]
          by_cases hlen : ((splitOnChar '|' l).map (fun cs => (⟨cs⟩ : String))).length ≠ nn
          · rw [if_pos hlen, if_pos hlen]
          · rw [if_neg hlen, if_neg hlen, exceptRows_map, exceptRows_map, ih (i + 1)]
  · intro path lines n h
    have hbad : badCountOf lines n ≠ 0 := by
      intro h0
      rcases h with ⟨l, hl, hne, hlen⟩
      exact hlen ((badCountOf_eq_zero_iff lines n).mp h0 l hl hne)
    refine ⟨⟨?_, hbad⟩, fun i => readUnlIterLines_bad path n lines i h⟩
    simp [readUnlLines, hbad]


/-- C6 witness: a one-line file whose row has one field, read expecting
three columns. -/
theorem c6_raw_reader_schema_witness :
    readUnlLines "f" [['a']] (some 3)
      = .error (unlSchemaMsg "f" (badCountOf [['a']] 3) 3) ∧ badCountOf [['a']] 3 ≠ 0 :=
  (c6_raw_reader_schema.2.2 "f" [['a']] 3 (by decide)).1


/-- C7 counterexample: on a file with `\r\n` line endings the two reader
modes return different field values (the streaming mode keeps the
carriage return in the last field), and on a file containing a vertical
tab the materialized mode succeeds while the streaming mode fails the
column-count check. -/
theorem c7_counterexample :
    (readUnl "f" ("a|b\r\nc|d\n").data (some 2) = .ok [["a", "b"], ["c", "d"]] ∧
     readUnlIter "f" ("a|b\r\nc|d\n").data (some 2) = .ok [["a", "b\r"], ["c", "d"]] ∧
     ([["a", "b"], ["c", "d"]] : List (List String)) ≠ [["a", "b\r"], ["c", "d"]]) ∧
    (readUnl "g" ("\x0b").data (some 2) = .ok [] ∧
     readUnlIter "g" ("\x0b").data (some 2) = .error (unlIterMsg "g" 0 2 1)) := by
  exact ⟨⟨by decide, by decide, by decide⟩, by decide, by decide⟩


/-- C7 (amended): on every input whose only line-break character is the
line feed (true of the pipeline's `.unl` exports), the materialized mode
and the streaming mode produce the same ordered sequence of
field-tuples, and either both succeed or both fail the column-count
check. -/
theorem c7_reader_equivalence (path : String) (content : List Char) (n : Option Nat)
    (h : onlyLFBreaks content = true) :
    exceptRows (readUnl path content n) = exceptRows (readUnlIter path content n) := by
  unfold readUnl readUnlIter
  rw [pyIterLines_eq_pySplitlines content h]
  generalize pySplitlines content = lines
  cases n with
  | none =>
    rw [readUnlIterLines_none]
    rfl
  | some nn =>
    by_cases hA : badCountOf lines nn = 0
    · rw [readUnlIterLines_allOk path nn lines 0 ((badCountOf_eq_zero_iff lines nn).mp hA)]
      simp [readUnlLines, hA]
    · have hex : ∃ l ∈ lines, l ≠ [] ∧ (splitOnChar '|' l).length ≠ nn := by
        by_contra hcon
        push_neg at hcon
        exact hA ((badCountOf_eq_zero_iff lines nn).mpr hcon)
      rcases readUnlIterLines_bad path nn lines 0 hex with ⟨r, got, herr, _⟩
      rw [herr]
      simp [readUnlLines, hA, exceptRows]


/-- C7 witness: the amended equivalence applied to a concrete LF-only
file. -/
theorem c7_reader_equivalence_witness :
    onlyLFBreaks ("a|b\nc|d\n").data = true ∧
    exceptRows (readUnl "p" ("a|b\nc|d\n").data (some 2))
      = exceptRows (readUnlIter "p" ("a|b\nc|d\n").data (some 2)) :=
  ⟨by decide, c7_reader_equivalence "p" ("a|b\nc|d\n").data (some 2) (by decide)⟩


/-- C10: the current-groups and all-groups derivations agree on every
input: same selection (clubs parented under the current term), same
transformation (marker stripped, classification forced to `"group"`),
identical record sequences. -/
theorem c10_groups_equivalence :
    (∀ orgs : List Org, runCurrentGroups orgs = runAllGroups orgs) ∧
    (∀ (orgs : List Org) (ct : Org) (recs : List GroupRec),
      resolveCurrentTerm orgs = .ok ct →
      runCurrentGroups orgs = .ok recs →
      ∀ g ∈ recs, g.classification = "group" ∧
        ∃ o ∈ orgs, o.parent_id = some ct.id ∧
          pyContains (o.name.getD "") klubSubstr = true ∧ g = mkGroupRec o) := by
  constructor
  · intro orgs
    rfl
  · intro orgs ct recs hct hrun g hg
    unfold runCurrentGroups at hrun
    rw [hct] at hrun
    simp only [Except.bind] at hrun
    have hrecs : recs = sortByLe groupLe ((orgs.filter (isClubOf ct.id)).map mkGroupRec) := by
      cases hrun
      rfl
    subst hrecs
    have hg2 := (mem_sortByLe _ _ _).mp hg
    rcases List.mem_map.mp hg2 with ⟨o, ho, hgo⟩
    have ho2 := List.mem_filter.mp ho
    have hclub := ho2.2
    unfold isClubOf at hclub
    rcases Bool.and_eq_true _ _ |>.mp hclub with ⟨hpar, hname⟩
    refine ⟨by rw [← hgo]; rfl, o, ho2.1, by simpa using hpar, hname, hgo.symm⟩


/-! ## Strict-order facts for the sort keys -/

theorem listLt_irrefl (a : List Char) : listLt a a = false := by
  induction a with
  | nil => rfl
  | cons x xs ih => simp [listLt, ih]


theorem listLt_le (a b : List Char) (h : listLt a b = true) : listLe a b = true := by
  induction a generalizing b with
  | nil => simp [listLe]
  | cons x xs ih =>
    cases b with
    | nil => simp [listLt] at h
    | cons y ys =>
      simp only [listLt, Bool.or_eq_true, Bool.and_eq_true, decide_eq_true_eq] at h
      simp only [listLe, Bool.or_eq_true, Bool.and_eq_true, decide_eq_true_eq]
      rcases h with h | ⟨he, hr⟩
      · exact Or.inl h
      · exact Or.inr ⟨he, ih ys hr⟩


theorem strLtB_irrefl (a : String) : strLtB a a = false := listLt_irrefl _


theorem strLtB_le (a b : String) (h : strLtB a b = true) : strLeB a b = true :=
  listLt_le _ _ h


theorem strLtB_ne (a b : String) (h : strLtB a b = true) : a ≠ b := by
  intro he
  rw [he, strLtB_irrefl] at h
  cases h


theorem strLtB_of_le_of_ne (a b : String) (h : strLeB a b = true) (hne : a ≠ b) :
    strLtB a b = true := by
  rcases strLtB_or_eq_of_strLeB a b h with h2 | h2
  · exact h2
  · exact absurd h2 hne


theorem strLtB_trans (a b c : String) (h1 : strLtB a b = true) (h2 : strLtB b c = true) :
    strLtB a c = true := by
  have hle := strLeB_trans a b c (strLtB_le a b h1) (strLtB_le b c h2)
  refine strLtB_of_le_of_ne a c hle ?_
  intro he
  subst he
  have hba := strLeB_antisymm a b (strLtB_le a b h1) (strLtB_le b a h2)
  subst hba
  rw [strLtB_irrefl] at h1
  cases h1


theorem strLtB_trans_le (a b c : String) (h1 : strLtB a b = true) (h2 : strLeB b c = true) :
    strLtB a c = true := by
  rcases strLtB_or_eq_of_strLeB b c h2 with h3 | h3
  · exact strLtB_trans a b c h1 h3
  · exact h3 ▸ h1


theorem strLeB_trans_lt (a b c : String) (h1 : strLeB a b = true) (h2 : strLtB b c = true) :
    strLtB a c = true := by
  rcases strLtB_or_eq_of_strLeB a b h1 with h3 | h3
  · exact strLtB_trans a b c h3 h2
  · exact h3 ▸ h2


theorem strLtB_not_sym (a b : String) (h : strLtB a b = true) : strLtB b a = false := by
  rw [Bool.eq_false_iff]
  intro h2
  have := strLtB_trans a b a h h2
  rw [strLtB_irrefl] at this
  cases this


theorem byKey2Le_total (k1 k2 : α → String) (a b : α) :
    byKey2Le k1 k2 a b || byKey2Le k1 k2 b a := by
  unfold byKey2Le
  rw [Bool.or_eq_true, Bool.or_eq_true, Bool.or_eq_true]
  by_cases he : k1 a = k1 b
  · rcases Bool.or_eq_true _ _ |>.mp (strLeB_total (k2 a) (k2 b)) with h | h
    · exact Or.inl (Or.inr (by simp [he, h]))
    · exact Or.inr (Or.inr (by simp [he.symm, h]))
  · rcases Bool.or_eq_true _ _ |>.mp (strLeB_total (k1 a) (k1 b)) with h | h
    · exact Or.inl (Or.inl (strLtB_of_le_of_ne _ _ h he))
    · exact Or.inr (Or.inl (strLtB_of_le_of_ne _ _ h (fun hc => he hc.symm)))


theorem byKey2Le_trans (k1 k2 : α → String) (a b c : α)
    (h1 : byKey2Le k1 k2 a b) (h2 : byKey2Le k1 k2 b c) : byKey2Le k1 k2 a c := by
  unfold byKey2Le at h1 h2 ⊢
  rw [Bool.or_eq_true] at h1 h2 ⊢
  simp only [Bool.and_eq_true, decide_eq_true_eq] at h1 h2 ⊢
  rcases h1 with h1 | ⟨h1e, h1r⟩
  · rcases h2 with h2 | ⟨h2e, h2r⟩
    · exact Or.inl (strLtB_trans _ _ _ h1 h2)
    · exact Or.inl (h2e ▸ h1)
  · rcases h2 with h2 | ⟨h2e, h2r⟩
    · exact Or.inl (h1e ▸ h2)
    · exact Or.inr ⟨h1e.trans h2e, strLeB_trans _ _ _ h1r h2r⟩


theorem itemLe_total (a b : MembershipItem) : itemLe a b || itemLe b a :=
  byKey2Le_total _ _ a b


theorem itemLe_trans (a b c : MembershipItem) (h1 : itemLe a b) (h2 : itemLe b c) :
    itemLe a c :=
  byKey2Le_trans _ _ a b c h1 h2


theorem optPairLe_total (na nb : Option String) (ia ib : String) :
    (optNameLt na nb || (na = nb && strLeB ia ib))
      || (optNameLt nb na || (nb = na && strLeB ib ia)) := by
  rcases na with _ | x <;> rcases nb with _ | y
  · simp only [optNameLt, Bool.false_or, Bool.or_eq_true, Bool.and_eq_true,
      decide_eq_true_eq]
    rcases Bool.or_eq_true _ _ |>.mp (strLeB_total ia ib) with h | h
    · exact Or.inl ⟨trivial, h⟩
    · exact Or.inr ⟨trivial, h⟩
  · simp [optNameLt]
  · simp [optNameLt]
  · simp only [optNameLt, Option.some.injEq, Bool.or_eq_true, Bool.and_eq_true,
      decide_eq_true_eq]
    by_cases hxy : x = y
    · subst hxy
      rcases Bool.or_eq_true _ _ |>.mp (strLeB_total ia ib) with h | h
      · exact Or.inl (Or.inr ⟨rfl, h⟩)
      · exact Or.inr (Or.inr ⟨rfl, h⟩)
    · rcases Bool.or_eq_true _ _ |>.mp (strLeB_total x y) with h | h
      · exact Or.inl (Or.inl (strLtB_of_le_of_ne _ _ h hxy))
      · exact Or.inr (Or.inl (strLtB_of_le_of_ne _ _ h (fun hc => hxy hc.symm)))


theorem optPairLe_trans (na nb nc : Option String) (ia ib ic : String)
    (h1 : (optNameLt na nb || (na = nb && strLeB ia ib)) = true)
    (h2 : (optNameLt nb nc || (nb = nc && strLeB ib ic)) = true) :
    (optNameLt na nc || (na = nc && strLeB ia ic)) = true := by
  rcases na with _ | x <;> rcases nb with _ | y <;> rcases nc with _ | z
  · simp only [optNameLt, Bool.false_or, Bool.or_eq_true, Bool.and_eq_true,
      decide_eq_true_eq] at h1 h2 ⊢
    exact ⟨trivial, strLeB_trans _ _ _ h1.2 h2.2⟩
  · simp [optNameLt] at h2
  · simp [optNameLt] at h1
  · simp [optNameLt] at h1
  · simp [optNameLt]
  · simp [optNameLt] at h2
  · simp [optNameLt]
  · simp only [optNameLt, Option.some.injEq, Bool.or_eq_true, Bool.and_eq_true,
      decide_eq_true_eq] at h1 h2 ⊢
    rcases h1 with h1 | ⟨h1e, h1r⟩
    · rcases h2 with h2 | ⟨h2e, h2r⟩
      · exact Or.inl (strLtB_trans _ _ _ h1 h2)
      · exact Or.inl (h2e ▸ h1)
    · rcases h2 with h2 | ⟨h2e, h2r⟩
      · exact Or.inl (h1e ▸ h2)
      · exact Or.inr ⟨h1e.trans h2e, strLeB_trans _ _ _ h1r h2r⟩


theorem rosterLe_total (a b : RosterEntry) : rosterLe a b || rosterLe b a :=
  optPairLe_total a.person.name b.person.name a.person.id b.person.id


theorem rosterLe_trans (a b c : RosterEntry) (h1 : rosterLe a b) (h2 : rosterLe b c) :
    rosterLe a c :=
  optPairLe_trans a.person.name b.person.name c.person.name
    a.person.id b.person.id c.person.id h1 h2


theorem pairwise_of_length_le_one {R : α → α → Prop} (l : List α) (h : l.length ≤ 1) :
    l.Pairwise R := by
  match l with
  | [] => exact List.Pairwise.nil
  | [a] => simp
  | a :: b :: t => simp at h


theorem flagItemFor_length_le_one (orgNameDict : List (String × Option String))
    (dict : List (String × Option String)) (pid : String) (sd ed : Option String) :
    (flagItemFor orgNameDict dict pid sd ed).length ≤ 1 := by
  unfold flagItemFor
  split
  · split <;> simp
  · simp


/-- A successful run_current_members factors through the pure core. -/
theorem runCurrentMembers_ok_shape (persons : List Person) (orgs : List Org)
    (memberships : List Membership) (posContent : List Char) (roster : List RosterEntry)
    (h : runCurrentMembers persons orgs memberships posContent = .ok roster) :
    ∃ ct flags,
      resolveCurrentTerm orgs = .ok ct ∧ ct.founding_date ≠ some "" ∧
      roster = currentRosterCore persons orgs memberships ct ct.founding_date flags := by
  unfold runCurrentMembers at h
  split at h
  · simp at h
  · rename_i ct hct
    split at h
    · simp at h
    · rename_i hfd
      split at h
      · simp at h
      · split at h
        · simp at h
        · rename_i flags hfl
          refine ⟨ct, flags, hct, hfd, ?_⟩
          injection h with h2
          exact h2.symm


/-- A successful run_all_members factors through the pure core. -/
theorem runAllMembers_ok_shape (persons : List Person) (orgs : List Org)
    (memberships : List Membership) (posContent : List Char) (roster : List RosterEntry)
    (h : runAllMembers persons orgs memberships posContent = .ok roster) :
    ∃ ct outImg,
      resolveCurrentTerm orgs = .ok ct ∧ ct.founding_date ≠ some "" ∧
      roster = allRosterCore orgs memberships ct (pyStrCell ct.founding_date)
        ((rowsOfLines (pySplitlines posContent)).map mkFlagRow) outImg := by
  unfold runAllMembers at h
  split at h
  · simp at h
  · split at h
    · simp at h
    · rename_i ct hct
      split at h
      · simp at h
      · rename_i hfd
        split at h
        · simp at h
        · rename_i outImg hoi
          refine ⟨ct, outImg, hct, hfd, ?_⟩
          injection h with h2
          exact h2.symm


theorem memFor_parliament (ctId : String) (ctName : Option String) (ctSince : Option String)
    (orgNameDict : List (String × Option String)) (clubDict : List (String × String))
    (currentIds : List String) (term_m groups_m : List Membership)
    (candDict consDict : List (String × Option String)) (pid : String) :
    (memFor ctId ctName ctSince orgNameDict clubDict currentIds term_m groups_m
        candDict consDict pid).parliament
      = sortByLe itemLe
          (if currentIds.contains pid then
            match parliamentEntriesFor ctId ctName term_m pid with
            | [] => [{ id := ctId, name := ctName, start_date := ctSince,
                       end_date := none }]
            | l => l
          else []) := rfl


theorem memFor_groups (ctId : String) (ctName : Option String) (ctSince : Option String)
    (orgNameDict : List (String × Option String)) (clubDict : List (String × String))
    (currentIds : List String) (term_m groups_m : List Membership)
    (candDict consDict : List (String × Option String)) (pid : String) :
    (memFor ctId ctName ctSince orgNameDict clubDict currentIds term_m groups_m
        candDict consDict pid).groups
      = sortByLe itemLe
          (if currentIds.contains pid then groupEntriesFor clubDict groups_m pid
           else []) := rfl


theorem memFor_candidate_length (ctId : String) (ctName : Option String)
    (ctSince : Option String)
    (orgNameDict : List (String × Option String)) (clubDict : List (String × String))
    (currentIds : List String) (term_m groups_m : List Membership)
    (candDict consDict : List (String × Option String)) (pid : String) :
    (memFor ctId ctName ctSince orgNameDict clubDict currentIds term_m groups_m
        candDict consDict pid).candidate_list.length ≤ 1 :=
  flagItemFor_length_le_one _ _ _ _ _


theorem memFor_constituency_length (ctId : String) (ctName : Option String)
    (ctSince : Option String)
    (orgNameDict : List (String × Option String)) (clubDict : List (String × String))
    (currentIds : List String) (term_m groups_m : List Membership)
    (candDict consDict : List (String × Option String)) (pid : String) :
    (memFor ctId ctName ctSince orgNameDict clubDict currentIds term_m groups_m
        candDict consDict pid).constituency.length ≤ 1 :=
  flagItemFor_length_le_one _ _ _ _ _


theorem memFor_shape (ctId : String) (ctName : Option String) (ctSince : Option String)
    (orgNameDict : List (String × Option String)) (clubDict : List (String × String))
    (currentIds : List String) (term_m groups_m : List Membership)
    (candDict consDict : List (String × Option String)) (pid : String) :
    ∃ l1 l2,
      (memFor ctId ctName ctSince orgNameDict clubDict currentIds term_m groups_m
          candDict consDict pid).parliament = sortByLe itemLe l1 ∧
      (memFor ctId ctName ctSince orgNameDict clubDict currentIds term_m groups_m
          candDict consDict pid).groups = sortByLe itemLe l2 :=
  ⟨_, _, rfl, rfl⟩


theorem memForAll_shape (ctId : String) (ctName : Option String)
    (orgNameDict : List (String × Option String)) (clubDict : List (String × String))
    (term_m groups_m : List Membership)
    (candDict consDict : List (String × Option String)) (pid : String) :
    ∃ l1 l2 l3 l4,
      (memForAll ctId ctName orgNameDict clubDict term_m groups_m
          candDict consDict pid).parliament = sortByLe itemLe l1 ∧
      (memForAll ctId ctName orgNameDict clubDict term_m groups_m
          candDict consDict pid).groups = sortByLe itemLe l2 ∧
      (memForAll ctId ctName orgNameDict clubDict term_m groups_m
          candDict consDict pid).candidate_list = sortByLe itemLe l3 ∧
      (memForAll ctId ctName orgNameDict clubDict term_m groups_m
          candDict consDict pid).constituency = sortByLe itemLe l4 :=
  ⟨_, _, _, _, rfl, rfl, rfl, rfl⟩


/-- C3: in both roster views, every successful run yields a roster
sorted by `(name ascending with missing names last, id ascending)`, in
which every membership-kind list of every entry is sorted by
`(start_date ascending with null first, id ascending)`; the output is a
pure function of the inputs, so the ordering is deterministic. -/
theorem c3_deterministic_ordering :
    (∀ (persons : List Person) (orgs : List Org) (memberships : List Membership)
        (posContent : List Char) (roster : List RosterEntry),
      runCurrentMembers persons orgs memberships posContent = .ok roster →
      roster.Pairwise (fun a b => rosterLe a b = true) ∧
      ∀ e ∈ roster,
        e.memberships.parliament.Pairwise (fun a b => itemLe a b = true) ∧
        e.memberships.groups.Pairwise (fun a b => itemLe a b = true) ∧
        e.memberships.candidate_list.Pairwise (fun a b => itemLe a b = true) ∧
        e.memberships.constituency.Pairwise (fun a b => itemLe a b = true)) ∧
    (∀ (persons : List Person) (orgs : List Org) (memberships : List Membership)
        (posContent : List Char) (roster : List RosterEntry),
      runAllMembers persons orgs memberships posContent = .ok roster →
      roster.Pairwise (fun a b => rosterLe a b = true) ∧
      ∀ e ∈ roster,
        e.memberships.parliament.Pairwise (fun a b => itemLe a b = true) ∧
        e.memberships.groups.Pairwise (fun a b => itemLe a b = true) ∧
        e.memberships.candidate_list.Pairwise (fun a b => itemLe a b = true) ∧
        e.memberships.constituency.Pairwise (fun a b => itemLe a b = true)) := by
  constructor
  · intro persons orgs memberships posContent roster hrun
    rcases runCurrentMembers_ok_shape _ _ _ _ _ hrun with ⟨ct, flags, _, _, hr⟩
    subst hr
    unfold currentRosterCore
    refine ⟨sortByLe_pairwise rosterLe rosterLe_total rosterLe_trans _, ?_⟩
    intro e he
    have he2 := (mem_sortByLe _ _ _).mp he
    rcases List.mem_map.mp he2 with ⟨pi, _, hei⟩
    rw [← hei]
    dsimp only
    rcases memFor_shape ct.id ct.name ct.founding_date _ _ _ _ _ _ _ pi.1.id with
      ⟨l1, l2, hp, hg⟩
    rw [hp, hg]
    exact ⟨sortByLe_pairwise itemLe itemLe_total itemLe_trans _,
      sortByLe_pairwise itemLe itemLe_total itemLe_trans _,
      pairwise_of_length_le_one _ (memFor_candidate_length _ _ _ _ _ _ _ _ _ _ _),
      pairwise_of_length_le_one _ (memFor_constituency_length _ _ _ _ _ _ _ _ _ _ _)⟩
  · intro persons orgs memberships posContent roster hrun
    rcases runAllMembers_ok_shape _ _ _ _ _ hrun with ⟨ct, outImg, _, _, hr⟩
    subst hr
    unfold allRosterCore
    refine ⟨sortByLe_pairwise rosterLe rosterLe_total rosterLe_trans _, ?_⟩
    intro e he
    have he2 := (mem_sortByLe _ _ _).mp he
    rcases List.mem_map.mp he2 with ⟨pi, _, hei⟩
    rw [← hei]
    dsimp only
    rcases memForAll_shape ct.id ct.name _ _ _ _ _ _ pi.1.id with
      ⟨l1, l2, l3, l4, hp, hg, hc, hn⟩
    rw [hp, hg, hc, hn]
    exact ⟨sortByLe_pairwise itemLe itemLe_total itemLe_trans _,
      sortByLe_pairwise itemLe itemLe_total itemLe_trans _,
      sortByLe_pairwise itemLe itemLe_total itemLe_trans _,
      sortByLe_pairwise itemLe itemLe_total itemLe_trans _⟩


/-- C2: current-term resolution succeeds if and only if exactly one
organization matches the current-term predicate (name contains the
legislature substring, null dissolution date); with exactly one match,
derivation proceeds with that organization; with zero or several
matches, run_current_term and run_current_members abort with an error
and produce no output. -/
theorem c2_current_term_resolution :
    ∀ orgs : List Org,
      ((resolveCurrentTerm orgs).isOk = true ↔ (orgs.filter isCurrentTermOrg).length = 1) ∧
      (∀ o, resolveCurrentTerm orgs = .ok o → orgs.filter isCurrentTermOrg = [o]) ∧
      ((orgs.filter isCurrentTermOrg).length ≠ 1 →
        (∀ path content, ∃ m, runCurrentTerm orgs path content = .error m) ∧
        (∀ persons memberships posContent, ∃ m,
          runCurrentMembers persons orgs memberships posContent = .error m)) := by
  intro orgs
  rcases hf : orgs.filter isCurrentTermOrg with _ | ⟨o1, _ | ⟨o2, t⟩⟩
  · have key : resolveCurrentTerm orgs
        = .error ("Expected exactly 1 current term org, found "
            ++ toString ([] : List Org).length) := by
      unfold resolveCurrentTerm
      rw [hf]
    refine ⟨by rw [key]; simp [Except.isOk, Except.toBool], ?_, ?_⟩
    · intro o ho
      rw [key] at ho
      cases ho
    · intro _
      constructor
      · intro path content
        exact ⟨_, by unfold runCurrentTerm; rw [key]⟩
      · intro persons memberships posContent
        exact ⟨_, by unfold runCurrentMembers; rw [key]⟩
  · have key : resolveCurrentTerm orgs = .ok o1 := by
      unfold resolveCurrentTerm
      rw [hf]
    refine ⟨by rw [key]; simp [Except.isOk, Except.toBool], ?_, ?_⟩
    · intro o ho
      rw [key] at ho
      injection ho with he
      rw [he]
    · intro hbad
      simp at hbad
  · have key : resolveCurrentTerm orgs
        = .error ("Expected exactly 1 current term org, found "
            ++ toString (o1 :: o2 :: t).length) := by
      unfold resolveCurrentTerm
      rw [hf]
    refine ⟨by rw [key]; simp [Except.isOk, Except.toBool], ?_, ?_⟩
    · intro o ho
      rw [key] at ho
      cases ho
    · intro _
      constructor
      · intro path content
        exact ⟨_, by unfold runCurrentTerm; rw [key]⟩
      · intro persons memberships posContent
        exact ⟨_, by unfold runCurrentMembers; rw [key]⟩


/-- C2 witness: the empty organization table (zero matches) makes both
derivations fail, and the sample two-organization table resolves to its
single current term. -/
theorem c2_current_term_resolution_witness :
    (∃ m, runCurrentTerm [] "organy.unl" [] = .error m) ∧
    (∃ m, runCurrentMembers [] [] [] [] = .error m) ∧
    [sampleTermOrg, sampleClubOrg].filter isCurrentTermOrg = [sampleTermOrg] :=
  ⟨((c2_current_term_resolution []).2.2 (by decide)).1 "organy.unl" [],
   ((c2_current_term_resolution []).2.2 (by decide)).2 [] [] [],
   (c2_current_term_resolution [sampleTermOrg, sampleClubOrg]).2.1 sampleTermOrg (by decide)⟩


theorem sortByLe_singleton (le : α → α → Bool) (a : α) : sortByLe le [a] = [a] := rfl


theorem parliamentEntriesFor_eq_explicit (memberships : List Membership) (ct : Org)
    (currentIds : List String) (pid : String) (h : currentIds.contains pid = true) :
    parliamentEntriesFor ct.id ct.name
        (memberships.filter (fun m =>
          m.organization_id = ct.id && currentIds.contains m.person_id)) pid
      = (explicitTermRows memberships ct.id pid).map (termParliamentItem ct) := by
  unfold parliamentEntriesFor explicitTermRows termParliamentItem
  rw [List.filter_filter]
  congr 1
  refine List.filter_congr (fun m _ => ?_)
  by_cases hp : m.person_id = pid
  · have h2 : pid ∈ currentIds := by simpa using h
    simp [hp, h2]
  · simp [hp]


/-- Every entry of the current-roster core belongs to a current person
id, and its parliament list is the sorted explicit rows with the
synthesized fallback. -/
theorem currentRosterCore_mem (persons : List Person) (orgs : List Org)
    (memberships : List Membership) (ct : Org) (ctSince : Option String)
    (flags : List (FlagRow × String)) (e : RosterEntry)
    (he : e ∈ currentRosterCore persons orgs memberships ct ctSince flags) :
    (flags.map (fun fi => fi.1.person_id)).contains e.person.id = true ∧
    e.memberships.parliament = sortByLe itemLe
      (match parliamentEntriesFor ct.id ct.name
          (memberships.filter (fun m => m.organization_id = ct.id &&
            (flags.map (fun fi => fi.1.person_id)).contains m.person_id)) e.person.id with
       | [] => [{ id := ct.id, name := ct.name, start_date := ctSince, end_date := none }]
       | l => l) := by
  unfold currentRosterCore at he
  have he2 := (mem_sortByLe _ _ _).mp he
  rcases List.mem_map.mp he2 with ⟨pi, hpi, hei⟩
  rcases List.mem_flatMap.mp hpi with ⟨p, hp, hpif⟩
  have hp2 := List.mem_filter.mp hp
  have hpi1 : pi.1 = p := by
    rcases hm : (flags.filter (fun fi => fi.1.person_id = p.id)) with _ | ⟨f0, fs⟩
    · rw [hm] at hpif
      rcases List.mem_singleton.mp hpif with h
      rw [h]
    · rw [hm] at hpif
      rcases List.mem_map.mp hpif with ⟨fi, _, hfe⟩
      rw [← hfe]
  have hperson : e.person = p := by
    rw [← hei, hpi1]
  have hcont : (flags.map (fun fi => fi.1.person_id)).contains e.person.id = true := by
    rw [hperson]
    exact hp2.2
  refine ⟨hcont, ?_⟩
  have hmem2 : e.memberships
      = memFor ct.id ct.name ctSince (orgs.map (fun o => (o.id, o.name)))
          ((orgs.filter (isClubOf ct.id)).map (fun o =>
            (o.id, stripClubMarker (o.name.getD ""))))
          (flags.map (fun fi => fi.1.person_id))
          (memberships.filter (fun m => m.organization_id = ct.id &&
            (flags.map (fun fi => fi.1.person_id)).contains m.person_id))
          (memberships.filter (fun m =>
            ((orgs.filter (isClubOf ct.id)).map (fun o => o.id)).contains m.organization_id &&
            (flags.map (fun fi => fi.1.person_id)).contains m.person_id))
          (flags.map (fun fi => (fi.1.person_id, fi.1.candidate_list_org_id)))
          (flags.map (fun fi => (fi.1.person_id, fi.1.constituency_org_id)))
          e.person.id := by
    rw [← hei]
  rw [hmem2, memFor_parliament, if_pos hcont]


/-- C8: in the current-roster view, a person with no explicit
term-membership row receives exactly the one synthesized parliament
entry spanning `[term_start, null]`; a person with explicit rows
receives exactly those rows (sorted), with no synthesized entry added. -/
theorem c8_membership_synthesis (persons : List Person) (orgs : List Org)
    (memberships : List Membership) (posContent : List Char)
    (roster : List RosterEntry) (ct : Org) (ctSince : String)
    (hct : resolveCurrentTerm orgs = .ok ct)
    (hfd : ct.founding_date = some ctSince)
    (hrun : runCurrentMembers persons orgs memberships posContent = .ok roster) :
    ∀ e ∈ roster,
      (explicitTermRows memberships ct.id e.person.id = [] →
        e.memberships.parliament = [synthesizedParliamentItem ct ctSince]) ∧
      (explicitTermRows memberships ct.id e.person.id ≠ [] →
        e.memberships.parliament = sortByLe itemLe
            ((explicitTermRows memberships ct.id e.person.id).map (termParliamentItem ct)) ∧
        e.memberships.parliament.length
          = (explicitTermRows memberships ct.id e.person.id).length) := by
  rcases runCurrentMembers_ok_shape _ _ _ _ _ hrun with ⟨ct2, flags, hct2, _, hr⟩
  rw [hct] at hct2
  injection hct2 with hcteq
  subst hcteq
  rw [hfd] at hr
  subst hr
  intro e he
  rcases currentRosterCore_mem persons orgs memberships ct (some ctSince) flags e he with
    ⟨hcont, hpar⟩
  rw [parliamentEntriesFor_eq_explicit memberships ct _ e.person.id hcont] at hpar
  constructor
  · intro hexp
    rw [hpar, hexp]
    rfl
  · intro hexp
    rcases hform : explicitTermRows memberships ct.id e.person.id with _ | ⟨m0, ms⟩
    · exact absurd hform hexp
    · rw [hform] at hpar
      simp only [List.map_cons] at hpar
      constructor
      · simp only [List.map_cons]
        exact hpar
      · rw [hpar, length_sortByLe]
        simp


theorem strAppend_left_inj (p a b : String) (h : (p ++ a) = (p ++ b)) : a = b := by
  have h2 := congrArg String.data h
  rw [String.data_append, String.data_append] at h2
  exact String.ext (List.append_cancel_left h2)


theorem processHlasRow_some (voidIds : List String) (r : List String)
    (p : VoteEvent × Motion) (h : processHlasRow voidIds r = .ok (some p)) :
    voidIds.contains p.1.identifier = false ∧
    p.2.identifier = p.1.identifier ∧
    p.1.id = "psp:vote-event:" ++ p.1.identifier ∧
    p.1.motion_id = "psp:motion:" ++ p.1.identifier ∧
    p.2.id = "psp:motion:" ++ p.1.identifier := by
  unfold processHlasRow at h
  by_cases hc : voidIds.contains (r.headD "") = true
  · rw [if_pos hc] at h
    simp at h
  · rw [if_neg hc] at h
    split at h
    · simp at h
    · split at h
      · simp at h
      · injection h with h2
        injection h2 with h3
        subst h3
        simp only [Bool.not_eq_true] at hc
        exact ⟨hc, rfl, rfl, rfl, rfl⟩


theorem buildEvents_mem (voidIds : List String) (rows : List (List String))
    (pairs : List (VoteEvent × Motion)) (h : buildEvents voidIds rows = .ok pairs)
    (p : VoteEvent × Motion) (hp : p ∈ pairs) :
    ∃ r, processHlasRow voidIds r = .ok (some p) := by
  induction rows generalizing pairs with
  | nil =>
    unfold buildEvents at h
    injection h with h2
    subst h2
    simp at hp
  | cons r rest ih =>
    unfold buildEvents at h
    split at h
    · simp at h
    · exact ih pairs h hp
    · rename_i p0 hp0
      split at h
      · simp at h
      · rename_i tail htail
        injection h with h2
        subst h2
        rcases List.mem_cons.mp hp with he | hm
        · exact ⟨r, he ▸ hp0⟩
        · exact ih tail htail hm


/-- C1: a vote identifier in the void set appears in no output of the
Ballot Standardizer: no VoteEvent carries it (as identifier, id or
motion reference), no Motion carries it, and every ballot row
referencing it is dropped. -/
theorem c1_void_exclusion (hlasRows zmatecneRows poslanecRows ballotRows : List (List String))
    (v : String) (hv : v ∈ voidIdsOf zmatecneRows)
    (ves : List VoteEvent) (ms : List Motion) (vs : List Vote)
    (hres : standardizeHlVotes hlasRows zmatecneRows poslanecRows ballotRows
      = .ok (ves, ms, vs)) :
    (∀ e ∈ ves, e.identifier ≠ v ∧ e.id ≠ "psp:vote-event:" ++ v ∧
      e.motion_id ≠ "psp:motion:" ++ v) ∧
    (∀ m ∈ ms, m.identifier ≠ v ∧ m.id ≠ "psp:motion:" ++ v) ∧
    (∀ vt ∈ vs, vt.vote_event_id ≠ "psp:vote-event:" ++ v) := by
  unfold standardizeHlVotes at hres
  split at hres
  · simp at hres
  · rename_i pairs hpairs
    split at hres
    · simp at hres
    · rename_i ves2 hves
      split at hres
      · simp at hres
      · rename_i ms2 hms
        injection hres with h2
        rw [Prod.mk.injEq, Prod.mk.injEq] at h2
        obtain ⟨he1, he2, he3⟩ := h2
        subst he1
        subst he2
        subst he3
        have hkey : ∀ p ∈ pairs, p.1.identifier ≠ v ∧
            p.2.identifier = p.1.identifier ∧
            p.1.id = "psp:vote-event:" ++ p.1.identifier ∧
            p.1.motion_id = "psp:motion:" ++ p.1.identifier ∧
            p.2.id = "psp:motion:" ++ p.1.identifier := by
          intro p hp
          rcases buildEvents_mem _ _ _ hpairs p hp with ⟨r, hr⟩
          rcases processHlasRow_some _ _ _ hr with ⟨hc, hmid, hid1, hmot, hid2⟩
          have hnot : p.1.identifier ∉ voidIdsOf zmatecneRows := by
            simpa using hc
          exact ⟨fun he => hnot (he ▸ hv), hmid, hid1, hmot, hid2⟩
        refine ⟨?_, ?_, ?_⟩
        · intro e hemem
          unfold sortVoteEventsByIdentifier at hves
          split at hves
          · injection hves with hves2
            subst hves2
            have he2 := (mem_sortByLe _ _ _).mp hemem
            rcases List.mem_map.mp he2 with ⟨p, hp, hpe⟩
            rcases hkey p hp with ⟨hne, _, hid1, hmot, _⟩
            subst hpe
            refine ⟨hne, ?_, ?_⟩
            · rw [hid1]
              intro hcon
              exact hne (strAppend_left_inj _ _ _ hcon)
            · rw [hmot]
              intro hcon
              exact hne (strAppend_left_inj _ _ _ hcon)
          · simp at hves
        · intro m hmmem
          unfold sortMotionsByIdentifier at hms
          split at hms
          · injection hms with hms2
            subst hms2
            have hm2 := (mem_sortByLe _ _ _).mp hmmem
            rcases List.mem_map.mp hm2 with ⟨p, hp, hpm⟩
            rcases hkey p hp with ⟨hne, hmid, _, _, hid2⟩
            subst hpm
            refine ⟨by rw [hmid]; exact hne, ?_⟩
            rw [hid2]
            intro hcon
            exact hne (strAppend_left_inj _ _ _ hcon)
          · simp at hms
        · intro vt hvt
          rcases List.mem_filterMap.mp hvt with ⟨row, _, hrow⟩
          dsimp only at hrow
          split at hrow
          · rename_i hcontains
            split at hrow
            · rename_i osoba hlook
              split at hrow
              · simp at hrow
              · injection hrow with hvte
                subst hvte
                have hhid : row.getD 1 "" ∈ pairs.map (fun p => p.1.identifier) := by
                  simpa using hcontains
                rcases List.mem_map.mp hhid with ⟨p, hp, hpid⟩
                rcases hkey p hp with ⟨hne, _, _, _, _⟩
                intro hcon
                exact hne (by rw [hpid]; exact strAppend_left_inj _ _ _ hcon)
            · simp at hrow
          · simp at hrow


/-- C3 witness: both roster views succeed on the sample data, and the
sortedness theorem applies to their outputs. -/
theorem c3_deterministic_ordering_witness :
    runCurrentMembers [samplePerson] [sampleTermOrg, sampleClubOrg]
        [sampleClubMembership] samplePosContent = .ok sampleCurrentRoster ∧
    sampleCurrentRoster.Pairwise (fun a b => rosterLe a b = true) ∧
    runAllMembers [samplePerson] [sampleTermOrg, sampleClubOrg]
        [sampleTermMembership, sampleClubMembership] samplePosContent = .ok sampleAllRoster ∧
    sampleAllRoster.Pairwise (fun a b => rosterLe a b = true) := by
  have h1 : runCurrentMembers [samplePerson] [sampleTermOrg, sampleClubOrg]
      [sampleClubMembership] samplePosContent = .ok sampleCurrentRoster := by decide
  have h2 : runAllMembers [samplePerson] [sampleTermOrg, sampleClubOrg]
      [sampleTermMembership, sampleClubMembership] samplePosContent = .ok sampleAllRoster := by
    decide
  exact ⟨h1, (c3_deterministic_ordering.1 _ _ _ _ _ h1).1, h2,
    (c3_deterministic_ordering.2 _ _ _ _ _ h2).1⟩


/-- C8 witness: the sample person has no explicit term-membership row,
so their parliament list is exactly the synthesized `[term_start, null]`
entry. -/
theorem c8_membership_synthesis_witness :
    explicitTermRows [sampleClubMembership] sampleTermOrg.id sampleRosterHead.person.id = [] ∧
    sampleRosterHead.memberships.parliament
      = [synthesizedParliamentItem sampleTermOrg "2025-01-01"] := by
  have h := c8_membership_synthesis [samplePerson] [sampleTermOrg, sampleClubOrg]
    [sampleClubMembership] samplePosContent sampleCurrentRoster sampleTermOrg "2025-01-01"
    (by decide) (by decide) (by decide) sampleRosterHead (by decide)
  exact ⟨by decide, h.1 (by decide)⟩


/-- C10 witness: a two-organization snapshot with one current term and
one club. -/
theorem c10_groups_equivalence_witness :
    (mkGroupRec sampleClubOrg).classification = "group" ∧
    ∃ o ∈ [sampleTermOrg, sampleClubOrg],
      o.parent_id = some sampleTermOrg.id ∧
        pyContains (o.name.getD "") klubSubstr = true ∧
        mkGroupRec sampleClubOrg = mkGroupRec o :=
  c10_groups_equivalence.2 [sampleTermOrg, sampleClubOrg] sampleTermOrg
    [mkGroupRec sampleClubOrg] (by decide) (by decide) (mkGroupRec sampleClubOrg) (by decide)


/-- C1 witness: on the sample rows the void id 2 is excluded from the
vote events, the motions and the votes. -/
theorem c1_void_exclusion_witness :
    "2" ∈ voidIdsOf c1Zmat ∧
    ((∀ e ∈ c1SampleOut.1, e.identifier ≠ "2" ∧ e.id ≠ "psp:vote-event:" ++ "2" ∧
        e.motion_id ≠ "psp:motion:" ++ "2") ∧
      (∀ m ∈ c1SampleOut.2.1, m.identifier ≠ "2" ∧ m.id ≠ "psp:motion:" ++ "2") ∧
      (∀ vt ∈ c1SampleOut.2.2, vt.vote_event_id ≠ "psp:vote-event:" ++ "2")) :=
  ⟨by decide,
    c1_void_exclusion c1Hlas c1Zmat c1Posl c1Ballots "2" (by decide)
      c1SampleOut.1 c1SampleOut.2.1 c1SampleOut.2.2 (by rfl)⟩

end CzPsp
